import Mathlib

/-!
Shallow embedding of `src/skills/xmind/scripts/create_xmind.mjs` (the XMind
file creator of the mcp-xmind repository) and proofs about it.

Modelling conventions, kept uniform through the file:

* `generateId()` in the source produces a 26-character token from
  `randomUUID()`.  Every claim treats identifiers as opaque fresh tokens, so
  the embedding threads a `Nat` counter and allocates successive numbers in
  exactly the order the source calls `generateId()`; freshness/uniqueness is
  what the model captures.
* `new Date(s).getTime()` (JavaScript `Date` parsing, an external runtime
  facility) is abstracted as a parameter `dm : String → Int`; no claim
  depends on concrete date values.
* `deflateRawSync` (zlib, an external library) is abstracted as a parameter
  `defl : List Nat → List Nat`; the round-trip theorem assumes a matching
  decompressor, which is zlib's documented contract.
* JavaScript truthiness on optional strings (`if (input.href)` …) is modelled
  by `truthy`: a present but empty string is falsy.
* JS objects with optional keys are modelled as structures with `Option`
  fields; an absent key is `none`.  The `children` wrapper object of a topic
  is flattened to the two fields `attached`/`callout` (in the source the
  wrapper exists iff at least one of the two is set).
* Byte buffers are `List Nat` with every element `< 256` (the writer
  primitives emit `% 256` reductions exactly where Node's
  `writeUInt16LE`/`writeUInt32LE` truncate).
-/

namespace XMind

/-- JavaScript truthiness of an optional string: absent or `""` is falsy. -/
def truthy : Option String → Bool
  | none => false
  | some s => s ≠ ""

/-! ### Input model (the JSON accepted on stdin, fields per the script and SKILL.md) -/

/-- A dependency entry `{targetTitle, type, lag?}`. -/
structure DepSpec where
  targetTitle : String
  type : String
  lag : Option Int
deriving DecidableEq, Repr, Inhabited

/-- A boundary entry `{range, title?}`. -/
structure BoundarySpec where
  range : String
  title : Option String
deriving DecidableEq, Repr, Inhabited

/-- A summary-topic entry `{range, title}`. -/
structure SummarySpec where
  range : String
  title : Option String
deriving DecidableEq, Repr, Inhabited

/-- A relationship entry `{sourceTitle, targetTitle, title?, shape?}`.
The script never reads `shape`; it is kept because the input format declares it. -/
structure RelSpec where
  sourceTitle : String
  targetTitle : String
  title : Option String
  shape : Option String
deriving DecidableEq, Repr, Inhabited

/-- `notes` is either a bare string or an object `{plain?, html?}`. -/
inductive NotesSpec where
  | str (s : String)
  | obj (plain : Option String) (html : Option String)
deriving DecidableEq, Repr, Inhabited

/-- The non-recursive fields of one input topic.  `attachment`, `shape` and
`position` are declared by the skill's input format (SKILL.md) and carried in
the input JSON; whether the script reads them is exactly what several claims
are about. -/
structure TopicSpecCore where
  title : Option String
  structureClass : Option String
  shape : Option String
  notes : Option NotesSpec
  href : Option String
  attachment : Option String
  linkToTopic : Option String
  labels : Option (List String)
  markers : Option (List String)
  callouts : Option (List String)
  taskStatus : Option String
  progress : Option Int
  priority : Option Int
  startDate : Option String
  dueDate : Option String
  durationDays : Option Int
  dependencies : Option (List DepSpec)
  boundaries : Option (List BoundarySpec)
  summaryTopics : Option (List SummarySpec)
  position : Option (Int × Int)
deriving DecidableEq, Repr, Inhabited

/-- One input topic: its scalar fields plus the ordered child list. -/
inductive TopicSpec where
  | mk (core : TopicSpecCore) (children : List TopicSpec)
deriving Repr, Inhabited

def TopicSpec.core : TopicSpec → TopicSpecCore
  | .mk c _ => c

def TopicSpec.children : TopicSpec → List TopicSpec
  | .mk _ ch => ch

/-- One input sheet.  `detachedTopics` and `freePositioning` are declared by
the input format; the script's treatment of them is what claim C4 examines. -/
structure SheetSpec where
  title : String
  rootTopic : TopicSpec
  relationships : Option (List RelSpec)
  detachedTopics : Option (List TopicSpec)
  freePositioning : Option Bool
  theme : Option String
deriving Repr, Inhabited

/-! ### Output model (the objects serialized into `content.json` etc.) -/

/-- A resolved dependency `{id, type, lag}`. -/
structure DepOut where
  id : Nat
  type : String
  lag : Int
deriving DecidableEq, Repr, Inhabited

/-- The `content` of the `org.xmind.ui.task` extension. -/
structure TaskContent where
  status : Option String
  progress : Option Int
  priority : Option Int
  start : Option Int
  due : Option Int
  duration : Option Int
  dependencies : Option (List DepOut)
deriving DecidableEq, Repr, Inhabited

/-- One element of a topic's `extensions` array. -/
structure TaskExt where
  provider : String
  content : TaskContent
deriving DecidableEq, Repr, Inhabited

/-- A built `notes` object; `plain`/`realHTML` each hold the `content` string. -/
structure NotesOut where
  plain : Option String
  realHTML : Option String
deriving DecidableEq, Repr, Inhabited

structure BoundaryOut where
  id : Nat
  range : String
  title : Option String
deriving DecidableEq, Repr, Inhabited

structure SummaryOut where
  id : Nat
  range : String
  topicId : Nat
deriving DecidableEq, Repr, Inhabited

structure SummaryTopicOut where
  id : Nat
  title : Option String
deriving DecidableEq, Repr, Inhabited

structure MarkerOut where
  markerId : String
deriving DecidableEq, Repr, Inhabited

/-- The non-recursive fields of one built topic object. -/
structure TopicCore where
  id : Nat
  title : Option String
  structureClass : Option String
  notes : Option NotesOut
  href : Option String
  labels : Option (List String)
  markers : Option (List MarkerOut)
  extensions : Option (List TaskExt)
  boundaries : Option (List BoundaryOut)
  summaries : Option (List SummaryOut)
  summary : Option (List SummaryTopicOut)
deriving DecidableEq, Repr, Inhabited

/-- One built topic: scalar fields plus `children.attached` / `children.callout`. -/
inductive Topic where
  | mk (core : TopicCore) (attached : Option (List Topic)) (callout : Option (List Topic))
deriving Repr

instance : Inhabited Topic := ⟨.mk default none none⟩

def Topic.core : Topic → TopicCore
  | .mk c _ _ => c

def Topic.attached : Topic → Option (List Topic)
  | .mk _ a _ => a

def Topic.callout : Topic → Option (List Topic)
  | .mk _ _ c => c

def Topic.id (t : Topic) : Nat := t.core.id

/-! ### Builder state and identifier generation -/

/-- The mutable state of `XMindBuilder`: the title index and the two pending
tables, plus the identifier counter standing in for `generateId()`. -/
structure BState where
  titleToId : List (Option String × Nat)
  pendingDeps : List (Nat × List DepSpec)
  pendingLinks : List (Nat × String)
  ctr : Nat
deriving Repr, Inhabited

def initState : BState := ⟨[], [], [], 0⟩

/-- Build errors thrown by the script (`throw new Error(...)`), structured by
site; `message` below reproduces the exact message strings. -/
inductive BErr where
  | depNotFound (title : String)
  | linkNotFound (title : String)
  | relSourceNotFound (title : String)
  | relTargetNotFound (title : String)
deriving DecidableEq, Repr, Inhabited

def quoted (s : String) : String := "\"" ++ s ++ "\""

def BErr.message : BErr → String
  | .depNotFound t => "Dependency target not found: " ++ quoted t
  | .linkNotFound t => "Link target not found: " ++ quoted t
  | .relSourceNotFound t => "Relationship source not found: " ++ quoted t
  | .relTargetNotFound t => "Relationship target not found: " ++ quoted t

def taskProvider : String := "org.xmind.ui.task"

/-- `xmind:#<id>` internal link target. -/
def xmindHref (n : Nat) : String := "xmind:#" ++ toString n

/-! ### buildTopic (source lines 221–288) -/

/-- The `notes` normalization of `buildTopic` (source lines 228–236). -/
def buildNotes : Option NotesSpec → Option NotesOut
  | none => none
  | some (.str s) => if s = "" then none else some ⟨some s, none⟩
  | some (.obj p h) =>
      some ⟨if truthy p then p else none, if truthy h then h else none⟩

/-- Boundary construction (source lines 260–264): one fresh id per boundary, in order. -/
def allocBoundaries : List BoundarySpec → Nat → List BoundaryOut × Nat
  | [], n => ([], n)
  | b :: bs, n =>
      let rest := allocBoundaries bs (n + 1)
      (⟨n, b.range, if truthy b.title then b.title else none⟩ :: rest.1, rest.2)

/-- Summary construction (source lines 265–273): per entry first the summary
topic's id, then the range descriptor's id. -/
def allocSummaries : List SummarySpec → Nat → List SummaryOut × List SummaryTopicOut × Nat
  | [], n => ([], [], n)
  | s :: ss, n =>
      let topicId := n
      let rid := n + 1
      let rest := allocSummaries ss (n + 2)
      (⟨rid, s.range, topicId⟩ :: rest.1, ⟨topicId, s.title⟩ :: rest.2.1, rest.2.2)

/-- Callout construction (source lines 278–280): flat `{id, title}` leaf topics. -/
def allocCallouts : List String → Nat → List Topic × Nat
  | [], n => ([], n)
  | t :: ts, n =>
      let rest := allocCallouts ts (n + 1)
      (Topic.mk { id := n, title := some t, structureClass := none, notes := none,
                  href := none, labels := none, markers := none, extensions := none,
                  boundaries := none, summaries := none, summary := none } none none
        :: rest.1, rest.2)

/-- The task-content record synthesized at source lines 246–255. -/
def mkTaskContent (dm : String → Int) (c : TopicSpecCore) : TaskContent :=
  { status := if truthy c.taskStatus then c.taskStatus else none
    progress := c.progress
    priority := c.priority
    start := if truthy c.startDate then c.startDate.map dm else none
    due := if truthy c.dueDate then c.dueDate.map dm else none
    duration :=
      if truthy c.dueDate && truthy c.startDate then
        match c.dueDate, c.startDate with
        | some d, some s => some (dm d - dm s)
        | _, _ => none
      else if c.durationDays.isSome && !truthy c.startDate then
        c.durationDays.map (· * 86400000)
      else none
    dependencies := none }

/-- `hasTaskProps` (source lines 242–244): string fields by truthiness,
numeric fields by `!== undefined`, `dependencies` by array truthiness. -/
def hasTaskProps (c : TopicSpecCore) : Bool :=
  truthy c.taskStatus || c.progress.isSome || c.priority.isSome ||
    truthy c.startDate || truthy c.dueDate || c.durationDays.isSome ||
    c.dependencies.isSome

mutual

/-- `XMindBuilder.buildTopic` (source lines 221–288), state-passing style. -/
def buildTopic (dm : String → Int) : TopicSpec → BState → Topic × BState
  | .mk c ch, st0 =>
    let id := st0.ctr
    let st1 : BState :=
      { st0 with ctr := st0.ctr + 1, titleToId := (c.title, id) :: st0.titleToId }
    let st2 : BState :=
      match c.linkToTopic with
      | some s => if s = "" then st1 else { st1 with pendingLinks := (id, s) :: st1.pendingLinks }
      | none => st1
    let exts : Option (List TaskExt) :=
      if hasTaskProps c then some [⟨taskProvider, mkTaskContent dm c⟩] else none
    let st3 : BState :=
      if hasTaskProps c && (c.dependencies.getD []).length > 0 then
        { st2 with pendingDeps := (id, c.dependencies.getD []) :: st2.pendingDeps }
      else st2
    let bres :=
      if (c.boundaries.getD []).length > 0 then
        let r := allocBoundaries (c.boundaries.getD []) st3.ctr
        (some r.1, r.2)
      else (none, st3.ctr)
    let sres :=
      if (c.summaryTopics.getD []).length > 0 then
        let r := allocSummaries (c.summaryTopics.getD []) bres.2
        (some r.1, some r.2.1, r.2.2)
      else (none, none, bres.2)
    let st5 : BState := { st3 with ctr := sres.2.2 }
    let ares :=
      if ch.length > 0 then
        let r := buildTopics dm ch st5
        (some r.1, r.2)
      else (none, st5)
    let cres :=
      if (c.callouts.getD []).length > 0 then
        let r := allocCallouts (c.callouts.getD []) ares.2.ctr
        (some r.1, r.2)
      else (none, ares.2.ctr)
    let st7 : BState := { ares.2 with ctr := cres.2 }
    (Topic.mk
      { id := id
        title := c.title
        structureClass := if truthy c.structureClass then c.structureClass else none
        notes := buildNotes c.notes
        href := if truthy c.href then c.href else none
        labels := c.labels
        markers :=
          if (c.markers.getD []).length > 0 then
            some ((c.markers.getD []).map MarkerOut.mk)
          else none
        extensions := exts
        boundaries := bres.1
        summaries := sres.1
        summary := sres.2.1 }
      ares.1 cres.1, st7)

def buildTopics (dm : String → Int) : List TopicSpec → BState → List Topic × BState
  | [], st => ([], st)
  | s :: rest, st =>
    let r1 := buildTopic dm s st
    let r2 := buildTopics dm rest r1.2
    (r1.1 :: r2.1, r2.2)

end

/-! ### resolveDependencies (source lines 201–214) -/

/-- Resolve one pending dependency list against the title index; the first
unresolved title aborts with the source's error (line 208). -/
def resolveDepList (idx : List (Option String × Nat)) :
    List DepSpec → Except BErr (List DepOut)
  | [] => .ok []
  | d :: ds =>
    match List.lookup (some d.targetTitle) idx with
    | none => .error (.depNotFound d.targetTitle)
    | some tid =>
      match resolveDepList idx ds with
      | .error e => .error e
      | .ok outs => .ok (⟨tid, d.type, d.lag.getD 0⟩ :: outs)

/-- Install the resolved dependency list into the first extension whose
provider is `org.xmind.ui.task` (the `find` at source line 204). -/
def setTaskDeps : List TaskExt → List DepOut → List TaskExt
  | [], _ => []
  | e :: es, ds =>
    if e.provider = taskProvider then
      { e with content := { e.content with dependencies := some ds } } :: es
    else e :: setTaskDeps es ds

mutual

/-- `XMindBuilder.resolveDependencies` (source lines 201–214): rewrite this
topic's task extension from the pending table, then recurse into the
`attached` children only. -/
def resolveDeps (pd : List (Nat × List DepSpec)) (idx : List (Option String × Nat)) :
    Topic → Except BErr Topic
  | .mk core att call =>
    let coreRes : Except BErr TopicCore :=
      match List.lookup core.id pd, core.extensions with
      | some ds, some exts =>
        if (exts.find? (fun e => e.provider == taskProvider)).isSome then
          match resolveDepList idx ds with
          | .error e => .error e
          | .ok outs => .ok { core with extensions := some (setTaskDeps exts outs) }
        else .ok core
      | _, _ => .ok core
    match coreRes with
    | .error e => .error e
    | .ok core' =>
      match att with
      | none => .ok (.mk core' none call)
      | some ts =>
        match resolveDepsList pd idx ts with
        | .error e => .error e
        | .ok ts' => .ok (.mk core' (some ts') call)

def resolveDepsList (pd : List (Nat × List DepSpec)) (idx : List (Option String × Nat)) :
    List Topic → Except BErr (List Topic)
  | [] => .ok []
  | t :: ts =>
    match resolveDeps pd idx t with
    | .error e => .error e
    | .ok t' =>
      match resolveDepsList pd idx ts with
      | .error e => .error e
      | .ok ts' => .ok (t' :: ts')

end

/-! ### resolveLinks (source lines 190–199) -/

mutual

/-- `XMindBuilder.resolveLinks` (source lines 190–199): set this topic's
`href` from the pending-link table, then recurse into `attached` and
`callout` children. -/
def resolveLinks (pl : List (Nat × String)) (idx : List (Option String × Nat)) :
    Topic → Except BErr Topic
  | .mk core att call =>
    let coreRes : Except BErr TopicCore :=
      match List.lookup core.id pl with
      | some tt =>
        if tt = "" then .ok core
        else
          match List.lookup (some tt) idx with
          | none => .error (.linkNotFound tt)
          | some tid => .ok { core with href := some (xmindHref tid) }
      | none => .ok core
    match coreRes with
    | .error e => .error e
    | .ok core' =>
      match resolveLinksO pl idx att with
      | .error e => .error e
      | .ok att' =>
        match resolveLinksO pl idx call with
        | .error e => .error e
        | .ok call' => .ok (.mk core' att' call')

/-- The `topic.children?.attached` / `topic.children?.callout` guards of the
source: a present child list is resolved, an absent one passes through. -/
def resolveLinksO (pl : List (Nat × String)) (idx : List (Option String × Nat)) :
    Option (List Topic) → Except BErr (Option (List Topic))
  | none => .ok none
  | some ts =>
    match resolveLinksList pl idx ts with
    | .error e => .error e
    | .ok ts' => .ok (some ts')

def resolveLinksList (pl : List (Nat × String)) (idx : List (Option String × Nat)) :
    List Topic → Except BErr (List Topic)
  | [] => .ok []
  | t :: ts =>
    match resolveLinks pl idx t with
    | .error e => .error e
    | .ok t' =>
      match resolveLinksList pl idx ts with
      | .error e => .error e
      | .ok ts' => .ok (t' :: ts')

end

/-! ### hasPlannedTasks (source lines 216–219), on the *input* spec tree -/

mutual

def hasPlannedTasks : TopicSpec → Bool
  | .mk c ch =>
    (truthy c.startDate || truthy c.dueDate || c.progress.isSome || c.durationDays.isSome) ||
      hasPlannedTasksL ch

def hasPlannedTasksL : List TopicSpec → Bool
  | [] => false
  | s :: rest => hasPlannedTasks s || hasPlannedTasksL rest

end

/-! ### Themes (source lines 98–118) and sheet/relationship output -/

/-- The four preset theme objects are constant data never inspected by any
logic; they are modelled as opaque tags.  `THEMES.default` is literally the
empty object in the source, so it shares the tag of the empty theme.
`THEMES` is a plain object literal, so bracket access also reaches the
properties every object inherits from `Object.prototype`: `protoFn name` is
such an inherited function value (truthy, and dropped by `JSON.stringify`,
so the sheet document is emitted without a `theme` key), and `protoObj` is
`Object.prototype` itself, reached through the selector `"__proto__"`
(truthy; its enumerable own properties are none, so it serializes as `{}`
while being a different runtime value than the empty object). -/
inductive ThemeVal where
  | empty
  | business
  | dark
  | simple
  | protoFn (name : String)
  | protoObj
deriving DecidableEq, Repr, Inhabited

def THEMES : List (String × ThemeVal) :=
  [("default", .empty), ("business", .business), ("dark", .dark), ("simple", .simple)]

/-- The function-valued property names every plain object literal inherits
from `Object.prototype` (Node's standard set). -/
def protoFnProps : List String :=
  ["constructor", "hasOwnProperty", "isPrototypeOf", "propertyIsEnumerable",
   "toLocaleString", "toString", "valueOf", "__defineGetter__", "__defineSetter__",
   "__lookupGetter__", "__lookupSetter__"]

/-- `sheet.theme ? THEMES[sheet.theme] || {} : {}` (source line 144).  The
bracket access consults the prototype chain: a preset name finds its own
property; `"__proto__"` and the `Object.prototype` method names find the
inherited value, which is truthy, so `|| {}` does not apply; every other
name (and the absent or empty selector) falls through to `{}`. -/
def themeOf : Option String → ThemeVal
  | none => .empty
  | some s =>
    if s = "" then .empty
    else
      match List.lookup s THEMES with
      | some v => v
      | none =>
        if s = "__proto__" then .protoObj
        else if s ∈ protoFnProps then .protoFn s
        else .empty

/-- The fixed working-calendar extension (source lines 155–163). -/
structure SheetExtension where
  provider : String
  contentName : String
  defaultWorkingDays : List Nat
deriving DecidableEq, Repr, Inhabited

def workingDaySettings : SheetExtension :=
  ⟨"org.xmind.ui.working-day-settings", "Calendrier de base", [1, 2, 3, 4, 5]⟩

/-- A resolved relationship (source lines 166–174). -/
structure RelOut where
  id : Nat
  end1Id : Nat
  end2Id : Nat
  title : Option String
deriving DecidableEq, Repr, Inhabited

/-- One emitted sheet document.  `topicPositioning` and
`floatingTopicFlexible` are fields of the external sheet schema; the script
never assigns them, which the model renders as fields that are always
`none`. -/
structure SheetObj where
  id : Nat
  sheetClass : String
  title : String
  rootTopic : Topic
  topicOverlapping : String
  theme : ThemeVal
  extensions : Option (List SheetExtension)
  relationships : Option (List RelOut)
  topicPositioning : Option String
  floatingTopicFlexible : Option Bool
deriving Repr, Inhabited

/-- Relationship resolution for one sheet (source lines 166–174); the id for
a relationship is generated only after both endpoint lookups succeed. -/
def resolveRels (idx : List (Option String × Nat)) :
    List RelSpec → Nat → Except BErr (List RelOut × Nat)
  | [], n => .ok ([], n)
  | r :: rs, n =>
    match List.lookup (some r.sourceTitle) idx with
    | none => .error (.relSourceNotFound r.sourceTitle)
    | some e1 =>
      match List.lookup (some r.targetTitle) idx with
      | none => .error (.relTargetNotFound r.targetTitle)
      | some e2 =>
        match resolveRels idx rs (n + 1) with
        | .error e => .error e
        | .ok (outs, n') =>
          .ok (⟨n, e1, e2, if truthy r.title then r.title else none⟩ :: outs, n')

/-! ### The build pipeline (`XMindBuilder.build`, source lines 127–188) -/

/-- Pass 1 (source lines 133–137): build each sheet's tree, then immediately
resolve that sheet's pending dependencies against the state *as of that
sheet*. -/
def phase1 (dm : String → Int) :
    List SheetSpec → BState → Except BErr (List (Topic × SheetSpec) × BState)
  | [], st => .ok ([], st)
  | sh :: rest, st =>
    let r := buildTopic dm sh.rootTopic st
    match resolveDeps r.2.pendingDeps r.2.titleToId r.1 with
    | .error e => .error e
    | .ok root' =>
      match phase1 dm rest r.2 with
      | .error e => .error e
      | .ok (prs, st') => .ok ((root', sh) :: prs, st')

/-- Pass 2 (source lines 139–141): resolve links of every sheet against the
final tables. -/
def phase2 (pl : List (Nat × String)) (idx : List (Option String × Nat)) :
    List (Topic × SheetSpec) → Except BErr (List (Topic × SheetSpec))
  | [] => .ok []
  | (t, sh) :: rest =>
    match resolveLinks pl idx t with
    | .error e => .error e
    | .ok t' =>
      match phase2 pl idx rest with
      | .error e => .error e
      | .ok rest' => .ok ((t', sh) :: rest')

/-- Sheet-document emission (source lines 143–177): sheet id, theme lookup,
working-calendar block when the *input* tree has planned tasks, and
relationship resolution against the final title index. -/
def phase3 (idx : List (Option String × Nat)) :
    List (Topic × SheetSpec) → Nat → Except BErr (List SheetObj × Nat)
  | [], n => .ok ([], n)
  | (root, sh) :: rest, n =>
    let base : SheetObj :=
      { id := n
        sheetClass := "sheet"
        title := sh.title
        rootTopic := root
        topicOverlapping := "overlap"
        theme := themeOf sh.theme
        extensions := if hasPlannedTasks sh.rootTopic then some [workingDaySettings] else none
        relationships := none
        topicPositioning := none
        floatingTopicFlexible := none }
    if (sh.relationships.getD []).length > 0 then
      match resolveRels idx (sh.relationships.getD []) (n + 1) with
      | .error e => .error e
      | .ok (outs, n') =>
        match phase3 idx rest n' with
        | .error e => .error e
        | .ok (objs, n'') => .ok ({ base with relationships := some outs } :: objs, n'')
    else
      match phase3 idx rest (n + 1) with
      | .error e => .error e
      | .ok (objs, n'') => .ok (base :: objs, n'')

/-- The fixed `metadata.json` record (source lines 181–185). -/
structure Metadata where
  dataStructureVersion : String
  creatorName : String
  creatorVersion : String
  layoutEngineVersion : String
deriving DecidableEq, Repr, Inhabited

def theMetadata : Metadata := ⟨"3", "xmind-skill", "1.0.0", "5"⟩

/-- The `manifest.json` document (source line 186): a `file-entries` map
whose keys are the fixed three names below, each mapped to `{}`. -/
structure Manifest where
  fileEntries : List String
deriving DecidableEq, Repr, Inhabited

def theManifest : Manifest := ⟨["content.json", "metadata.json", "Thumbnails/thumbnail.png"]⟩

/-- The value of `XMindBuilder.build`: the three documents (structured here;
the source serializes them with `JSON.stringify`). -/
structure BuildResult where
  content : List SheetObj
  metadata : Metadata
  manifest : Manifest
deriving Repr

/-- `XMindBuilder.build` (source lines 127–188). -/
def build (dm : String → Int) (sheets : List SheetSpec) : Except BErr BuildResult :=
  match phase1 dm sheets initState with
  | .error e => .error e
  | .ok (prs, st) =>
    match phase2 st.pendingLinks st.titleToId prs with
    | .error e => .error e
    | .ok prs2 =>
      match phase3 st.titleToId prs2 st.ctr with
      | .error e => .error e
      | .ok (objs, _) => .ok ⟨objs, theMetadata, theManifest⟩

/-- The names of the entries `main` hands to `buildZip` (source lines
313–317): always exactly these three. -/
def zipEntryNames : List String := ["content.json", "metadata.json", "manifest.json"]

/-- `main` (source lines 292–321) after the path checks: on a build error the
process exits without writing anything; on success it writes the container
with exactly `zipEntryNames` as entries.  `none` models "no file written". -/
def mainEntries (dm : String → Int) (sheets : List SheetSpec) : Option (List String) :=
  match build dm sheets with
  | .error _ => none
  | .ok _ => some zipEntryNames

/-! ### The minimal ZIP writer (source lines 13–90)

Buffers are `List Nat` with all elements `< 256`.  `u16le`/`u32le` are
Node's `writeUInt16LE`/`writeUInt32LE` at a fresh offset (values reduced
modulo the field width).  The deflate step is the external `deflateRawSync`,
abstracted as a function parameter. -/

def u16le (n : Nat) : List Nat := [n % 256, n / 256 % 256]

def u32le (n : Nat) : List Nat :=
  [n % 256, n / 256 % 256, n / 65536 % 256, n / 16777216 % 256]

/-- Byte of a buffer at an index (out of range reads 0, as a conforming
reader over a bounds-checked buffer would never exercise). -/
def byteAt (l : List Nat) (i : Nat) : Nat := l.getD i 0

/-- Little-endian 16-bit read at an offset. -/
def rd16 (l : List Nat) (i : Nat) : Nat := byteAt l i + 256 * byteAt l (i + 1)

/-- Little-endian 32-bit read at an offset. -/
def rd32 (l : List Nat) (i : Nat) : Nat :=
  byteAt l i + 256 * byteAt l (i + 1) + 65536 * byteAt l (i + 2) +
    16777216 * byteAt l (i + 3)

/-- One step of the CRC-32 bit loop: `crc = (crc >>> 1) ^ (crc & 1 ? 0xEDB88320 : 0)`. -/
def crcBit (crc : Nat) : Nat :=
  if crc % 2 = 1 then (crc / 2) ^^^ 0xEDB88320 else crc / 2

/-- Eight bit-steps for one input byte (source line 19). -/
def crcByte (crc b : Nat) : Nat :=
  (crcBit <| crcBit <| crcBit <| crcBit <| crcBit <| crcBit <| crcBit <| crcBit (crc ^^^ b))

/-- `crc32` (source lines 15–22), on the 32-bit register as a natural number. -/
def crc32 (buf : List Nat) : Nat :=
  (buf.foldl crcByte 0xFFFFFFFF) ^^^ 0xFFFFFFFF

/-- UTF-8 bytes of an entry name (`Buffer.from(name, 'utf-8')`), written via
the UTF-8 encoder's recursive model so that it evaluates inside the kernel. -/
def strBytes (s : String) : List Nat :=
  (s.data.flatMap String.utf8EncodeChar).map UInt8.toNat

/-- The 30-byte local file header (source lines 36–47). -/
def localHeader (crc compLen uncompLen nameLen : Nat) : List Nat :=
  u32le 0x04034b50 ++ u16le 20 ++ u16le 0 ++ u16le 8 ++ u16le 0 ++ u16le 0 ++
    u32le crc ++ u32le compLen ++ u32le uncompLen ++ u16le nameLen ++ u16le 0

/-- The 46-byte central directory header (source lines 53–70). -/
def cdHeader (crc compLen uncompLen nameLen offset : Nat) : List Nat :=
  u32le 0x02014b50 ++ u16le 20 ++ u16le 20 ++ u16le 0 ++ u16le 8 ++ u16le 0 ++
    u16le 0 ++ u32le crc ++ u32le compLen ++ u32le uncompLen ++ u16le nameLen ++
    u16le 0 ++ u16le 0 ++ u16le 0 ++ u16le 0 ++ u32le 0 ++ u32le offset

/-- One local entry: header, name bytes, compressed payload (source line 49). -/
def zipEntry (defl : List Nat → List Nat) (name : String) (data : List Nat) : List Nat :=
  localHeader (crc32 data) (defl data).length data.length (strBytes name).length ++
    strBytes name ++ defl data

/-- One central directory record (source line 72). -/
def zipCD (defl : List Nat → List Nat) (name : String) (data : List Nat) (offset : Nat) :
    List Nat :=
  cdHeader (crc32 data) (defl data).length data.length (strBytes name).length offset ++
    strBytes name

/-- The loop of `buildZip` (source lines 30–74): entries and central-directory
records, with the running offset. -/
def zipParts (defl : List Nat → List Nat) :
    List (String × List Nat) → Nat → List (List Nat) × List (List Nat)
  | [], _ => ([], [])
  | (name, data) :: fs, off =>
    let e := zipEntry defl name data
    let c := zipCD defl name data off
    let rest := zipParts defl fs (off + e.length)
    (e :: rest.1, c :: rest.2)

/-- The 22-byte end-of-central-directory record (source lines 79–87). -/
def eocd (count cdSize cdOff : Nat) : List Nat :=
  u32le 0x06054b50 ++ u16le 0 ++ u16le 0 ++ u16le count ++ u16le count ++
    u32le cdSize ++ u32le cdOff ++ u16le 0

/-- `buildZip` (source lines 24–90). -/
def buildZip (defl : List Nat → List Nat) (files : List (String × List Nat)) : List Nat :=
  let parts := zipParts defl files 0
  let entries := parts.1.flatten
  let centralDir := parts.2.flatten
  entries ++ centralDir ++ eocd files.length centralDir.length entries.length

/-! ### A conforming reader of the fixed ZIP layout

The claim about the archive round-trip quantifies over "a conforming reader
of the fixed binary layout": locate the end-of-central-directory record,
take the entry count and the central directory's position from it, follow
each central-directory record to its local header, slice out name and
compressed payload by the recorded lengths, inflate, and check the stored
CRC-32 and uncompressed size. -/

/-- Parse the local entry at `off`: signature check, lengths from the local
header, name and payload slices, CRC and size checks. -/
def readLocal (decomp : List Nat → List Nat) (zip : List Nat) (off : Nat) :
    Option (List Nat × List Nat) :=
  if rd32 zip off = 0x04034b50 then
    let compLen := rd32 zip (off + 18)
    let nameLen := rd16 zip (off + 26)
    let nm := (zip.drop (off + 30)).take nameLen
    let comp := (zip.drop (off + 30 + nameLen)).take compLen
    let data := decomp comp
    if crc32 data = rd32 zip (off + 14) && data.length % 4294967296 = rd32 zip (off + 22) then
      some (nm, data)
    else none
  else none

/-- Parse `k` central-directory records starting at `p`, following each to
its local entry. -/
def readCD (decomp : List Nat → List Nat) (zip : List Nat) :
    Nat → Nat → Option (List (List Nat × List Nat))
  | 0, _ => some []
  | k + 1, p =>
    if rd32 zip p = 0x02014b50 then
      let nameLen := rd16 zip (p + 28)
      let localOff := rd32 zip (p + 42)
      match readLocal decomp zip localOff with
      | none => none
      | some entry =>
        match readCD decomp zip k (p + 46 + nameLen) with
        | none => none
        | some rest => some (entry :: rest)
    else none

/-- The whole reader: end-of-central-directory record at the buffer's tail
(the writer emits no archive comment), then the central directory located by
the offset the record carries, with the record's entry count. -/
def readZip (decomp : List Nat → List Nat) (zip : List Nat) :
    Option (List (List Nat × List Nat)) :=
  if 22 ≤ zip.length then
    if rd32 zip (zip.length - 22) = 0x06054b50 then
      if rd16 zip (zip.length - 22 + 8) = rd16 zip (zip.length - 22 + 10) then
        if rd32 zip (zip.length - 22 + 16) + rd32 zip (zip.length - 22 + 12) =
            zip.length - 22 then
          readCD decomp zip (rd16 zip (zip.length - 22 + 10)) (rd32 zip (zip.length - 22 + 16))
        else none
      else none
    else none
  else none

/-! ### Views of inputs and outputs used by the statements -/

mutual

/-- All nodes of an input topic tree, in pre-order. -/
def specNodes : TopicSpec → List TopicSpec
  | .mk c ch => .mk c ch :: specNodesL ch

def specNodesL : List TopicSpec → List TopicSpec
  | [] => []
  | s :: rest => specNodes s ++ specNodesL rest

end

/-- The `title` fields of all nodes of an input topic tree, in pre-order. -/
def specTitlesT (s : TopicSpec) : List (Option String) :=
  (specNodes s).map (fun q => q.core.title)

/-- Every topic title of a build input, across all sheets (only `rootTopic`
trees: these are the nodes the script walks). -/
def allTitles (sheets : List SheetSpec) : List (Option String) :=
  sheets.flatMap (fun sh => specTitlesT sh.rootTopic)

/-- The titles of a forest of input topics, in pre-order. -/
def specTitlesL (ss : List TopicSpec) : List (Option String) :=
  (specNodesL ss).map (fun q => q.core.title)

mutual

/-- The `title` fields of all nodes of a built topic tree (`attached` and
`callout` children), in pre-order. -/
def builtTitles : Topic → List (Option String)
  | .mk core att call =>
    core.title :: (builtTitlesO att ++ builtTitlesO call)

def builtTitlesO : Option (List Topic) → List (Option String)
  | none => []
  | some l => builtTitlesL l

def builtTitlesL : List Topic → List (Option String)
  | [] => []
  | t :: rest => builtTitles t ++ builtTitlesL rest

end

mutual

/-- Corresponding (input node, built node) pairs of one sheet's tree: the
builder maps the input `children` list to the built `attached` list
positionally, so zipping the two tree spines pairs every input node with the
built node it produced. -/
def pairsT : TopicSpec → Topic → List (TopicSpec × Topic)
  | .mk c ch, t =>
    (.mk c ch, t) ::
      (match t.attached with
       | none => []
       | some ts => pairsL ch ts)

def pairsL : List TopicSpec → List Topic → List (TopicSpec × Topic)
  | [], _ => []
  | _, [] => []
  | s :: ss, t :: ts => pairsT s t ++ pairsL ss ts

end

/-- The payload of a successful build (the error branch never occurs where
this is used). -/
def getOk : Except BErr BuildResult → BuildResult
  | .ok r => r
  | .error _ => ⟨[], theMetadata, theManifest⟩

/-- The error of a failed build, if any. -/
def buildErr (dm : String → Int) (sheets : List SheetSpec) : Option BErr :=
  match build dm sheets with
  | .error e => some e
  | .ok _ => none

def buildOk (dm : String → Int) (sheets : List SheetSpec) : Bool :=
  (build dm sheets).isOk

/-! ### Concrete build inputs used by counterexamples and evaluations -/

/-- An input topic with every optional field absent. -/
def blankCore : TopicSpecCore := default

/-- A leaf input topic carrying only a title. -/
def leafT (t : String) : TopicSpec := .mk { blankCore with title := some t } []

/-- A sheet with only a title and a root topic. -/
def sheet0 (title : String) (root : TopicSpec) : SheetSpec :=
  ⟨title, root, none, none, none, none⟩

/-- A concrete stand-in for JavaScript date parsing; no statement below
depends on its values. -/
def dm0 : String → Int := fun _ => 0

/-- A topic with one finish-to-start dependency on `target`. -/
def depTopic (t target : String) : TopicSpec :=
  .mk { blankCore with title := some t, dependencies := some [⟨target, "FS", none⟩] } []

/-- Sheet 1 depends (task dependency) on a title defined only in sheet 2. -/
def exForwardDep : List SheetSpec :=
  [sheet0 "S1" (depTopic "A" "B"), sheet0 "S2" (leafT "B")]

/-- Sheet 1 depends on "B" (defined in sheet 2); sheet 2 depends on "Z",
which is bound to no topic in any sheet. -/
def exDangling : List SheetSpec :=
  [sheet0 "S1" (depTopic "A" "B"), sheet0 "S2" (depTopic "B" "Z")]

/-- One topic with an attachment path. -/
def exAttachment : List SheetSpec :=
  [sheet0 "S" (.mk { blankCore with title := some "T", attachment := some "/tmp/a.png" } [])]

/-- A detached topic titled "X" with a position. -/
def detachedX : TopicSpec :=
  .mk { blankCore with title := some "X", position := some (0, 130) } []

/-- A free-positioning sheet with one detached topic titled "X". -/
def exFreePos : List SheetSpec :=
  [{ sheet0 "S" (leafT "R") with freePositioning := some true, detachedTopics := some [detachedX] }]

/-- A malformed topic record: no title, an attachment together with an
external link, and a position. -/
def malformedCore : TopicSpecCore :=
  { blankCore with title := none, href := some "https://example.com",
                   attachment := some "/tmp/a.bin", position := some (1, 2) }

/-- A malformed topic on a sheet that does not enable free positioning. -/
def exMalformed : List SheetSpec := [sheet0 "S" (.mk malformedCore [])]

/-- A topic carrying only `progress` (no dates, no duration). -/
def exProgressOnly : List SheetSpec :=
  [sheet0 "S" (.mk { blankCore with title := some "T", progress := some 1 } [])]

/-- A plain one-topic build. -/
def exPlain : List SheetSpec := [sheet0 "S" (leafT "R")]

/-- Topic "A" in sheet 1 links to "B", defined only in sheet 2. -/
def exForwardLink : List SheetSpec :=
  [sheet0 "S1" (.mk { blankCore with title := some "A", linkToTopic := some "B" } []),
   sheet0 "S2" (leafT "B")]

/-- A relationship in sheet 1 whose target title is defined only in sheet 2. -/
def exForwardRel : List SheetSpec :=
  [{ sheet0 "S1" (leafT "A") with relationships := some [⟨"A", "B", none, none⟩] },
   sheet0 "S2" (leafT "B")]

/-- A sheet selecting a theme name that is none of the four presets. -/
def exUnknownTheme : List SheetSpec :=
  [{ sheet0 "S" (leafT "R") with theme := some "neon" }]

/-- The fields claim C7 lists as triggering the scheduling block
(`durationDays`, `startDate`, `dueDate` — without `progress`). -/
def claimSchedFields (q : TopicSpec) : Bool :=
  q.core.startDate.isSome || q.core.dueDate.isSome || q.core.durationDays.isSome

/-! ### Claim theorems on concrete inputs -/

/-! ### Pipeline decomposition lemmas -/

/-- The condition `hasPlannedTasks` tests on one node (source line 217). -/
def plannedFields (c : TopicSpecCore) : Bool :=
  truthy c.startDate || truthy c.dueDate || c.progress.isSome || c.durationDays.isSome

mutual

theorem hasPlannedTasks_iff : ∀ s : TopicSpec,
    hasPlannedTasks s = true ↔ ∃ q ∈ specNodes s, plannedFields q.core = true
  | .mk c ch => by
    have ih := hasPlannedTasksL_iff ch
    simp only [hasPlannedTasks, specNodes, plannedFields, Bool.or_eq_true] at ih ⊢
    constructor
    · rintro (h | h)
      · exact ⟨.mk c ch, .head _, h⟩
      · obtain ⟨q, hq, hf⟩ := ih.1 h
        exact ⟨q, .tail _ hq, hf⟩
    · rintro ⟨q, hq, hf⟩
      rcases List.mem_cons.1 hq with rfl | hq
      · exact Or.inl hf
      · exact Or.inr (ih.2 ⟨q, hq, hf⟩)

theorem hasPlannedTasksL_iff : ∀ l : List TopicSpec,
    hasPlannedTasksL l = true ↔ ∃ q ∈ specNodesL l, plannedFields q.core = true
  | [] => by simp [hasPlannedTasksL, specNodesL]
  | s :: rest => by
    have ih1 := hasPlannedTasks_iff s
    have ih2 := hasPlannedTasksL_iff rest
    simp only [hasPlannedTasksL, specNodesL, Bool.or_eq_true, List.mem_append] at ih1 ih2 ⊢
    constructor
    · rintro (h | h)
      · obtain ⟨q, hq, hf⟩ := ih1.1 h
        exact ⟨q, Or.inl hq, hf⟩
      · obtain ⟨q, hq, hf⟩ := ih2.1 h
        exact ⟨q, Or.inr hq, hf⟩
    · rintro ⟨q, hq | hq, hf⟩
      · exact Or.inl (ih1.2 ⟨q, hq, hf⟩)
      · exact Or.inr (ih2.2 ⟨q, hq, hf⟩)

end

/-- Pass 1 does not reorder, drop or alter the sheet records it carries. -/
theorem phase1_snd (dm : String → Int) : ∀ (l : List SheetSpec) (st : BState) prs st',
    phase1 dm l st = .ok (prs, st') → prs.map Prod.snd = l := by
  intro l
  induction l with
  | nil => intro st prs st' h; simp [phase1] at h; simp [h.1]
  | cons sh rest ih =>
    intro st prs st' h
    simp only [phase1] at h
    split at h
    · exact absurd h (by simp)
    · split at h
      · exact absurd h (by simp)
      · rename_i prs' hrec
        obtain ⟨h1, h2⟩ := by simpa using h
        subst h1
        simpa using ih _ _ _ hrec

/-- Pass 2 resolves each carried tree in place and keeps each sheet record. -/
theorem phase2_get (pl : List (Nat × String)) (idx : List (Option String × Nat)) :
    ∀ (l l' : List (Topic × SheetSpec)), phase2 pl idx l = .ok l' →
      l'.length = l.length ∧
        ∀ i, i < l.length →
          resolveLinks pl idx (l.getD i default).1 = .ok (l'.getD i default).1 ∧
            (l'.getD i default).2 = (l.getD i default).2 := by
  intro l
  induction l with
  | nil => intro l' h; simp [phase2] at h; simp [h]
  | cons p rest ih =>
    intro l' h
    obtain ⟨t, sh⟩ := p
    simp only [phase2] at h
    split at h
    · exact absurd h (by simp)
    · next t' hres =>
        split at h
        · exact absurd h (by simp)
        · next rest' hrec =>
            obtain rfl := by simpa using h
            obtain ⟨hlen, hpt⟩ := ih _ hrec
            refine ⟨by simp [hlen], ?_⟩
            intro i hi
            cases i with
            | zero => simpa using hres
            | succ j => exact hpt j (by simpa using hi)

/-- Pass 3 pointwise: each emitted sheet document's scalar fields come from
the corresponding carried pair. -/
theorem phase3_get (idx : List (Option String × Nat)) :
    ∀ (l : List (Topic × SheetSpec)) (n : Nat) objs n', phase3 idx l n = .ok (objs, n') →
      objs.length = l.length ∧
        ∀ i, i < l.length →
          (objs.getD i default).theme = themeOf ((l.getD i default).2.theme) ∧
            (objs.getD i default).extensions =
              (if hasPlannedTasks (l.getD i default).2.rootTopic then
                some [workingDaySettings] else none) ∧
            (objs.getD i default).rootTopic = (l.getD i default).1 ∧
            (objs.getD i default).title = (l.getD i default).2.title ∧
            (objs.getD i default).topicPositioning = none ∧
            (objs.getD i default).floatingTopicFlexible = none := by
  intro l
  induction l with
  | nil => intro n objs n' h; simp [phase3] at h; simp [h.1]
  | cons p rest ih =>
    intro n objs n' h
    obtain ⟨root, sh⟩ := p
    simp only [phase3] at h
    split at h
    · split at h
      · exact absurd h (by simp)
      · rename_i outs m hrels
        split at h
        · exact absurd h (by simp)
        · rename_i objs' n'' hrec
          obtain ⟨h1, h2⟩ := by simpa using h
          subst h1
          obtain ⟨hlen, hpt⟩ := ih _ _ _ hrec
          refine ⟨by simp [hlen], ?_⟩
          intro i hi
          cases i with
          | zero => simp
          | succ j => exact hpt j (by simpa using hi)
    · split at h
      · exact absurd h (by simp)
      · rename_i objs' n'' hrec
        obtain ⟨h1, h2⟩ := by simpa using h
        subst h1
        obtain ⟨hlen, hpt⟩ := ih _ _ _ hrec
        refine ⟨by simp [hlen], ?_⟩
        intro i hi
        cases i with
        | zero => simp
        | succ j => exact hpt j (by simpa using hi)

/-- A successful build decomposes into its three passes. -/
theorem build_ok_decomp (dm : String → Int) (sheets : List SheetSpec) (res : BuildResult)
    (h : build dm sheets = .ok res) :
    ∃ prs st prs2 nfin,
      phase1 dm sheets initState = .ok (prs, st) ∧
        phase2 st.pendingLinks st.titleToId prs = .ok prs2 ∧
        phase3 st.titleToId prs2 st.ctr = .ok (res.content, nfin) ∧
        res.manifest = theManifest ∧ res.metadata = theMetadata := by
  unfold build at h
  split at h
  · exact absurd h (by simp)
  · rename_i prs st h1
    split at h
    · exact absurd h (by simp)
    · rename_i prs2 h2
      split at h
      · exact absurd h (by simp)
      · rename_i objs nfin h3
        obtain rfl := by simpa using h
        exact ⟨prs, st, prs2, nfin, h1, h2, h3, rfl, rfl⟩

/-- C1, counterexample.  The claim: every kind of deferred title-based
reference (including task dependencies) resolves only after every sheet's
tree has been built, so a dependency in sheet 1 on title "B" defined only in
sheet 2 (titles unique) resolves successfully.  On `exForwardDep` the build
instead fails: `resolveDependencies` runs inside the per-sheet loop, before
sheet 2 exists in the title index. -/
theorem c1_counterexample :
    buildErr dm0 exForwardDep = some (.depNotFound "B") ∧
      (allTitles exForwardDep).Nodup ∧ some "B" ∈ allTitles exForwardDep := by
  decide

/-- C2.  The script ignores the documented `attachment` field entirely: the
build succeeds, the originating topic's link stays unset, and the container
receives exactly the three fixed document entries — no hash-derived resource
entry is ever added. -/
theorem c2_attachment_ignored :
    buildOk dm0 exAttachment = true ∧
      (getOk (build dm0 exAttachment)).content.map (fun s => s.rootTopic.core.href) = [none] ∧
      mainEntries dm0 exAttachment = some zipEntryNames := by
  decide

/-- C3, counterexample.  In `exDangling` the only title bound to no topic in
any sheet is "Z", yet the build's error names "B" — a title that *is* bound
(in sheet 2) but had not been built yet when sheet 1's dependencies were
resolved.  The error therefore does not name "that unresolved title". -/
theorem c3_counterexample :
    buildErr dm0 exDangling = some (.depNotFound "B") ∧
      some "B" ∈ allTitles exDangling ∧ some "Z" ∉ allTitles exDangling := by
  decide

/-- C4.  With free positioning enabled and one detached topic "X", the build
succeeds but the emitted sheet document carries neither `topicPositioning`
nor `floatingTopicFlexible`, and no topic titled "X" exists anywhere in the
output tree: the script never reads `freePositioning`, `detachedTopics` or
`position`. -/
theorem c4_free_positioning_ignored :
    buildOk dm0 exFreePos = true ∧
      (getOk (build dm0 exFreePos)).content.map
        (fun s => (s.topicPositioning, s.floatingTopicFlexible)) = [(none, none)] ∧
      (getOk (build dm0 exFreePos)).content.map (fun s => builtTitles s.rootTopic) =
        [[some "R"]] := by
  decide

/-- C5, counterexample.  A topic with no title, an attachment together with
an external link, and a position on a sheet without free positioning builds
without any error, contradicting the claim that such inputs fail with an
`InvalidInputError`-kind error. -/
theorem c5_counterexample : buildOk dm0 exMalformed = true := by decide

/-- C5, amended.  The script validates none of the three conditions: the
malformed input is accepted, the missing title flows through as an absent
`title` field, and the external link is kept while the conflicting
attachment is silently ignored. -/
theorem c5_no_validation :
    buildOk dm0 exMalformed = true ∧
      (getOk (build dm0 exMalformed)).content.map
        (fun s => (s.rootTopic.core.title, s.rootTopic.core.href)) =
        [(none, some "https://example.com")] := by
  decide

/-- C6, counterexample.  On a successful build the container's entries are
`content.json`, `metadata.json`, `manifest.json`, but the manifest's
`file-entries` keys are `content.json`, `metadata.json`,
`Thumbnails/thumbnail.png`: `manifest.json` is an entry yet not a key, and
`Thumbnails/thumbnail.png` is a key yet not an entry. -/
theorem c6_counterexample :
    mainEntries dm0 exPlain = some zipEntryNames ∧
      (getOk (build dm0 exPlain)).manifest.fileEntries = theManifest.fileEntries ∧
      "manifest.json" ∈ zipEntryNames ∧ "manifest.json" ∉ theManifest.fileEntries ∧
      "Thumbnails/thumbnail.png" ∈ theManifest.fileEntries ∧
      "Thumbnails/thumbnail.png" ∉ zipEntryNames := by
  decide

/-- The concrete result of building `exPlain`. -/
def resPlain : BuildResult := getOk (build dm0 exPlain)

/-- C6, amended.  On every successful build, the manifest is the fixed
`file-entries` map over `content.json`, `metadata.json`,
`Thumbnails/thumbnail.png`, while the container receives exactly the entries
`content.json`, `metadata.json`, `manifest.json`; the two name sets differ,
so the manifest keys are not the container's entry names. -/
theorem c6_manifest_fixed (dm : String → Int) (sheets : List SheetSpec) (res : BuildResult)
    (h : build dm sheets = .ok res) :
    res.manifest = theManifest ∧ mainEntries dm sheets = some zipEntryNames ∧
      theManifest.fileEntries ≠ zipEntryNames := by
  obtain ⟨prs, st, prs2, nfin, _, _, _, hman, _⟩ := build_ok_decomp dm sheets res h
  refine ⟨hman, ?_, by decide⟩
  unfold mainEntries
  rw [h]

/-- C6, witness: the fixed-manifest theorem applied to the concrete build
`exPlain`. -/
theorem c6_manifest_fixed_witness :
    build dm0 exPlain = .ok resPlain ∧
      (resPlain.manifest = theManifest ∧ mainEntries dm0 exPlain = some zipEntryNames ∧
        theManifest.fileEntries ≠ zipEntryNames) :=
  ⟨rfl, c6_manifest_fixed dm0 exPlain resPlain rfl⟩

/-- C7, counterexample.  No topic of `exProgressOnly` carries `durationDays`,
`startDate` or `dueDate`, yet the emitted sheet document includes the
working-calendar block, because `hasPlannedTasks` also triggers on
`progress`. -/
theorem c7_counterexample :
    buildOk dm0 exProgressOnly = true ∧
      (getOk (build dm0 exProgressOnly)).content.map (fun s => s.extensions.isSome) = [true] ∧
      exProgressOnly.all (fun sh => (specNodes sh.rootTopic).all (fun q => !claimSchedFields q)) =
        true := by
  decide

/-- C7, amended.  A sheet's emitted document carries the working-calendar
block exactly when some topic of the sheet's input tree carries a truthy
`startDate` or `dueDate`, or a present `progress` or `durationDays` —
`progress` included, unlike the claim's field list. -/
theorem c7_calendar_iff (dm : String → Int) (sheets : List SheetSpec) (res : BuildResult)
    (h : build dm sheets = .ok res) (i : Nat) (hi : i < sheets.length) :
    (res.content.getD i default).extensions.isSome = true ↔
      ∃ q ∈ specNodes ((sheets.getD i default).rootTopic), plannedFields q.core = true := by
  obtain ⟨prs, st, prs2, nfin, h1, h2, h3, _, _⟩ := build_ok_decomp dm sheets res h
  have hsnd := phase1_snd dm sheets initState prs st h1
  have hlen1 : prs.length = sheets.length := by rw [← hsnd]; simp
  obtain ⟨hlen2, hpt2⟩ := phase2_get _ _ prs prs2 h2
  obtain ⟨hlen3, hpt3⟩ := phase3_get _ prs2 st.ctr res.content nfin h3
  have hi2 : i < prs.length := hlen1 ▸ hi
  have hi3 : i < prs2.length := hlen2 ▸ hi2
  obtain ⟨_, hext, _, _, _, _⟩ := hpt3 i hi3
  obtain ⟨_, hsh2⟩ := hpt2 i hi2
  have hmap : (prs.map Prod.snd).getD i default = (prs.getD i default).2 := by
    rw [List.getD_eq_getElem _ _ (by simpa using hi2), List.getD_eq_getElem _ _ hi2,
      List.getElem_map]
  have hsheet : (prs.getD i default).2 = sheets.getD i default := by rw [← hmap, hsnd]
  rw [hext, hsh2, hsheet]
  by_cases hp : hasPlannedTasks (sheets.getD i default).rootTopic
  · rw [if_pos hp]
    exact iff_of_true rfl ((hasPlannedTasks_iff _).1 hp)
  · rw [if_neg hp]
    exact iff_of_false (by simp) (fun hx => hp ((hasPlannedTasks_iff _).2 hx))

/-- The concrete result of building `exProgressOnly`. -/
def resProgress : BuildResult := getOk (build dm0 exProgressOnly)

/-! ### Theme handling (claim C10) -/

/-- The four preset theme names of `THEMES`. -/
def presetNames : List String := ["default", "business", "dark", "simple"]

/-- A theme selector that is neither a preset nor an inherited
`Object.prototype` property falls through `THEMES[name] || {}` to the
empty theme object. -/
theorem themeOf_unknown (name : String) (h : name ∉ presetNames)
    (hp : name ∉ protoFnProps) (hq : name ≠ "__proto__") :
    themeOf (some name) = .empty := by
  simp only [presetNames, List.mem_cons, List.not_mem_nil, or_false, not_or] at h
  obtain ⟨h1, h2, h3, h4⟩ := h
  have e1 : (name == "default") = false := beq_eq_false_iff_ne.mpr h1
  have e2 : (name == "business") = false := beq_eq_false_iff_ne.mpr h2
  have e3 : (name == "dark") = false := beq_eq_false_iff_ne.mpr h3
  have e4 : (name == "simple") = false := beq_eq_false_iff_ne.mpr h4
  by_cases h0 : name = ""
  · simp [themeOf, h0]
  · simp [themeOf, THEMES, List.lookup, h0, e1, e2, e3, e4, hp, hq]

/-- Replace one sheet's theme selector through `f`. -/
def rethemeSheet (f : Option String → Option String) (sh : SheetSpec) : SheetSpec :=
  { sh with theme := f sh.theme }

/-- Replace every sheet's theme selector through `f`, leaving everything
else unchanged. -/
def retheme (f : Option String → Option String) (sheets : List SheetSpec) : List SheetSpec :=
  sheets.map (rethemeSheet f)

/-- `rethemeSheet` on the sheet carried through the passes. -/
def rethemePair (f : Option String → Option String) (p : Topic × SheetSpec) :
    Topic × SheetSpec :=
  (p.1, rethemeSheet f p.2)

theorem rethemeSheet_rootTopic (f : Option String → Option String) (sh : SheetSpec) :
    (rethemeSheet f sh).rootTopic = sh.rootTopic := rfl

theorem rethemeSheet_relationships (f : Option String → Option String) (sh : SheetSpec) :
    (rethemeSheet f sh).relationships = sh.relationships := rfl

theorem phase1_retheme (dm : String → Int) (f : Option String → Option String) :
    ∀ (l : List SheetSpec) (st : BState),
      phase1 dm (retheme f l) st =
        (phase1 dm l st).map (fun pr => (pr.1.map (rethemePair f), pr.2)) := by
  intro l
  induction l with
  | nil => intro st; simp [phase1, retheme, Except.map]
  | cons sh rest ih =>
    intro st
    simp only [retheme, List.map_cons] at ih ⊢
    simp only [phase1, rethemeSheet_rootTopic]
    split
    · simp [Except.map]
    · rw [ih]
      cases phase1 dm rest (buildTopic dm sh.rootTopic st).2 with
      | error e => simp [Except.map]
      | ok pr => simp [Except.map, rethemePair]

theorem phase2_retheme (pl : List (Nat × String)) (idx : List (Option String × Nat))
    (f : Option String → Option String) :
    ∀ l : List (Topic × SheetSpec),
      phase2 pl idx (l.map (rethemePair f)) =
        (phase2 pl idx l).map (List.map (rethemePair f)) := by
  intro l
  induction l with
  | nil => simp [phase2, Except.map]
  | cons p rest ih =>
    obtain ⟨t, sh⟩ := p
    simp only [List.map_cons] at ih ⊢
    simp only [phase2, rethemePair]
    split
    · simp [Except.map]
    · rw [ih]
      cases phase2 pl idx rest with
      | error e => simp [Except.map]
      | ok l' => simp [Except.map, rethemePair]

theorem phase3_retheme_isOk (idx : List (Option String × Nat))
    (f : Option String → Option String) :
    ∀ (l : List (Topic × SheetSpec)) (n : Nat),
      (phase3 idx (l.map (rethemePair f)) n).isOk = (phase3 idx l n).isOk := by
  intro l
  induction l with
  | nil => intro n; simp
  | cons p rest ih =>
    intro n
    obtain ⟨t, sh⟩ := p
    simp only [List.map_cons, phase3, rethemePair, rethemeSheet_relationships,
      rethemeSheet_rootTopic]
    by_cases hc : (sh.relationships.getD []).length > 0
    · rw [if_pos hc, if_pos hc]
      cases hr : resolveRels idx (sh.relationships.getD []) (n + 1) with
      | error e => simp
      | ok pr =>
        obtain ⟨outs, m⟩ := pr
        dsimp only
        have hIH := ih m
        cases h3 : phase3 idx rest m with
        | error e =>
          rw [h3] at hIH
          cases h4 : phase3 idx (rest.map (rethemePair f)) m with
          | error e2 => rfl
          | ok pr2 => rw [h4] at hIH; simp [Except.isOk, Except.toBool] at hIH
        | ok pr1 =>
          obtain ⟨objs1, n1⟩ := pr1
          rw [h3] at hIH
          cases h4 : phase3 idx (rest.map (rethemePair f)) m with
          | error e2 => rw [h4] at hIH; simp [Except.isOk, Except.toBool] at hIH
          | ok pr2 => obtain ⟨objs2, n2⟩ := pr2; rfl
    · rw [if_neg hc, if_neg hc]
      have hIH := ih (n + 1)
      cases h3 : phase3 idx rest (n + 1) with
      | error e =>
        rw [h3] at hIH
        cases h4 : phase3 idx (rest.map (rethemePair f)) (n + 1) with
        | error e2 => rfl
        | ok pr2 => rw [h4] at hIH; simp [Except.isOk, Except.toBool] at hIH
      | ok pr1 =>
        obtain ⟨objs1, n1⟩ := pr1
        rw [h3] at hIH
        cases h4 : phase3 idx (rest.map (rethemePair f)) (n + 1) with
        | error e2 => rw [h4] at hIH; simp [Except.isOk, Except.toBool] at hIH
        | ok pr2 => obtain ⟨objs2, n2⟩ := pr2; rfl

/-- C10 (amended).  Theme selectors never decide between success and
failure: mapping every sheet's selector through any function leaves the
build's success bit unchanged; and on a successful build, a sheet whose
selector is neither a preset name nor one of the properties every object
literal inherits from `Object.prototype` is emitted with the empty theme
object.  (Inherited names escape the `|| \x7b\x7d` fallback:
`c10_counterexample`.) -/
theorem c10_unknown_theme (dm : String → Int) (sheets : List SheetSpec)
    (f : Option String → Option String) :
    (build dm (retheme f sheets)).isOk = (build dm sheets).isOk ∧
      ∀ res i name, build dm sheets = .ok res → i < sheets.length →
        (sheets.getD i default).theme = some name → name ∉ presetNames →
        name ∉ protoFnProps → name ≠ "__proto__" →
        (res.content.getD i default).theme = ThemeVal.empty := by
  constructor
  · unfold build
    rw [phase1_retheme]
    cases h1 : phase1 dm sheets initState with
    | error e => rfl
    | ok pr =>
      obtain ⟨prs, st⟩ := pr
      dsimp only [Except.map]
      rw [phase2_retheme]
      cases h2 : phase2 st.pendingLinks st.titleToId prs with
      | error e => rfl
      | ok prs2 =>
        dsimp only [Except.map]
        have h3 := phase3_retheme_isOk st.titleToId f prs2 st.ctr
        cases h4 : phase3 st.titleToId (prs2.map (rethemePair f)) st.ctr with
        | error e =>
          rw [h4] at h3
          cases h5 : phase3 st.titleToId prs2 st.ctr with
          | error e2 => rfl
          | ok pr2 =>
            rw [h5] at h3
            simp [Except.isOk, Except.toBool] at h3
        | ok pr1 =>
          obtain ⟨objs1, n1⟩ := pr1
          rw [h4] at h3
          cases h5 : phase3 st.titleToId prs2 st.ctr with
          | error e2 =>
            rw [h5] at h3
            simp [Except.isOk, Except.toBool] at h3
          | ok pr2 => obtain ⟨objs2, n2⟩ := pr2; rfl
  · intro res i name h hi htheme hname hnp hnq
    obtain ⟨prs, st, prs2, nfin, h1, h2, h3, _, _⟩ := build_ok_decomp dm sheets res h
    have hsnd := phase1_snd dm sheets initState prs st h1
    have hlen1 : prs.length = sheets.length := by rw [← hsnd]; simp
    obtain ⟨hlen2, hpt2⟩ := phase2_get _ _ prs prs2 h2
    obtain ⟨hlen3, hpt3⟩ := phase3_get _ prs2 st.ctr res.content nfin h3
    have hi2 : i < prs.length := hlen1 ▸ hi
    have hi3 : i < prs2.length := hlen2 ▸ hi2
    obtain ⟨hth, _, _, _, _, _⟩ := hpt3 i hi3
    obtain ⟨_, hsh2⟩ := hpt2 i hi2
    have hmap : (prs.map Prod.snd).getD i default = (prs.getD i default).2 := by
      rw [List.getD_eq_getElem _ _ (by simpa using hi2), List.getD_eq_getElem _ _ hi2,
        List.getElem_map]
    have hsheet : (prs.getD i default).2 = sheets.getD i default := by rw [← hmap, hsnd]
    rw [hth, hsh2, hsheet, htheme, themeOf_unknown name hname hnp hnq]

/-- A sheet selecting the theme name "toString" — not a preset, but an
`Object.prototype` property name. -/
def exProtoTheme : List SheetSpec :=
  [{ sheet0 "S" (leafT "R") with theme := some "toString" }]

/-- The concrete result of building `exProtoTheme`. -/
def resProtoTheme : BuildResult := getOk (build dm0 exProtoTheme)

/-- C10, counterexample.  The claim: every sheet selecting a theme name
other than the four presets is emitted with the empty theme object.  For
the non-preset selector "toString", bracket access on the `THEMES` object
literal finds the inherited `Object.prototype.toString` — a truthy
function, so the `|| \x7b\x7d` fallback never applies; `JSON.stringify`
then drops the function-valued key, so the emitted sheet document carries
no theme key at all rather than the empty theme object.  The build still
succeeds. -/
theorem c10_counterexample :
    buildOk dm0 exProtoTheme = true ∧
      "toString" ∉ presetNames ∧
      resProtoTheme.content.map (fun s => s.theme) = [ThemeVal.protoFn "toString"] ∧
      ThemeVal.protoFn "toString" ≠ ThemeVal.empty := by
  decide

/-- The concrete result of building `exUnknownTheme`. -/
def resUnknownTheme : BuildResult := getOk (build dm0 exUnknownTheme)

/-- C10, witness: the theorem applied to the concrete build
`exUnknownTheme`, whose only sheet selects the unknown theme "neon". -/
theorem c10_unknown_theme_witness :
    build dm0 exUnknownTheme = .ok resUnknownTheme ∧
      (build dm0 (retheme id exUnknownTheme)).isOk = (build dm0 exUnknownTheme).isOk ∧
      (resUnknownTheme.content.getD 0 default).theme = ThemeVal.empty :=
  ⟨rfl, (c10_unknown_theme dm0 exUnknownTheme id).1,
    (c10_unknown_theme dm0 exUnknownTheme id).2 resUnknownTheme 0 "neon" rfl (by decide)
      (by decide) (by decide) (by decide) (by decide)⟩

/-- C7, witness: the calendar-block characterization applied to the concrete
build `exProgressOnly` at sheet 0. -/
theorem c7_calendar_iff_witness :
    build dm0 exProgressOnly = .ok resProgress ∧ 0 < exProgressOnly.length ∧
      ((resProgress.content.getD 0 default).extensions.isSome = true ↔
        ∃ q ∈ specNodes ((exProgressOnly.getD 0 default).rootTopic),
          plannedFields q.core = true) :=
  ⟨rfl, by decide, c7_calendar_iff dm0 exProgressOnly resProgress rfl 0 (by decide)⟩


/-! ### Round-trip of the ZIP layout (claim C9) -/

theorem rd32_u32le (a : Nat) (X : List Nat) : rd32 (u32le a ++ X) 0 = a % 4294967296 := by
  simp [rd32, byteAt, u32le]
  omega

theorem rd16_u16le (a : Nat) (X : List Nat) : rd16 (u16le a ++ X) 0 = a % 65536 := by
  simp [rd16, byteAt, u16le]
  omega

theorem byteAt_drop (l : List Nat) (i k : Nat) : byteAt (l.drop i) k = byteAt l (i + k) := by
  simp [byteAt, List.getD_eq_getD_get?, List.get?_drop]

theorem rd16_drop (l : List Nat) (i k : Nat) : rd16 (l.drop i) k = rd16 l (i + k) := by
  simp [rd16, byteAt_drop, Nat.add_assoc]

theorem rd32_drop (l : List Nat) (i k : Nat) : rd32 (l.drop i) k = rd32 l (i + k) := by
  simp [rd32, byteAt_drop, Nat.add_assoc]

theorem localHeader_length (a b c d : Nat) : (localHeader a b c d).length = 30 := rfl

theorem cdHeader_length (a b c d e : Nat) : (cdHeader a b c d e).length = 46 := rfl

theorem eocd_length (a b c : Nat) : (eocd a b c).length = 22 := rfl

theorem zipEntry_length (defl : List Nat → List Nat) (name : String) (data : List Nat) :
    (zipEntry defl name data).length = 30 + (strBytes name).length + (defl data).length := by
  simp [zipEntry, localHeader_length]
  omega

theorem zipCD_length (defl : List Nat → List Nat) (name : String) (data : List Nat) (off : Nat) :
    (zipCD defl name data off).length = 46 + (strBytes name).length := by
  simp [zipCD, cdHeader_length]

theorem rd32_lh_sig (a b c d : Nat) (X : List Nat) :
    rd32 (localHeader a b c d ++ X) 0 = 0x04034b50 := by
  have h : localHeader a b c d ++ X =
      u32le 0x04034b50 ++ (u16le 20 ++ u16le 0 ++ u16le 8 ++ u16le 0 ++ u16le 0 ++
        u32le a ++ u32le b ++ u32le c ++ u16le d ++ u16le 0 ++ X) := by
    simp [localHeader, List.append_assoc]
  rw [h, rd32_u32le]

theorem rd32_lh_crc (a b c d : Nat) (X : List Nat) :
    rd32 (localHeader a b c d ++ X) 14 = a % 4294967296 := by
  simp [rd32, byteAt, localHeader, u32le, u16le]
  omega

theorem rd32_lh_comp (a b c d : Nat) (X : List Nat) :
    rd32 (localHeader a b c d ++ X) 18 = b % 4294967296 := by
  simp [rd32, byteAt, localHeader, u32le, u16le]
  omega

theorem rd32_lh_uncomp (a b c d : Nat) (X : List Nat) :
    rd32 (localHeader a b c d ++ X) 22 = c % 4294967296 := by
  simp [rd32, byteAt, localHeader, u32le, u16le]
  omega

theorem rd16_lh_name (a b c d : Nat) (X : List Nat) :
    rd16 (localHeader a b c d ++ X) 26 = d % 65536 := by
  simp [rd16, byteAt, localHeader, u32le, u16le]
  omega

theorem rd32_cd_sig (a b c d e : Nat) (X : List Nat) :
    rd32 (cdHeader a b c d e ++ X) 0 = 0x02014b50 := by
  have h : cdHeader a b c d e ++ X =
      u32le 0x02014b50 ++ (u16le 20 ++ u16le 20 ++ u16le 0 ++ u16le 8 ++ u16le 0 ++
        u16le 0 ++ u32le a ++ u32le b ++ u32le c ++ u16le d ++ u16le 0 ++ u16le 0 ++
        u16le 0 ++ u16le 0 ++ u32le 0 ++ u32le e ++ X) := by
    simp [cdHeader, List.append_assoc]
  rw [h, rd32_u32le]

theorem rd16_cd_name (a b c d e : Nat) (X : List Nat) :
    rd16 (cdHeader a b c d e ++ X) 28 = d % 65536 := by
  simp [rd16, byteAt, cdHeader, u32le, u16le]
  omega

theorem rd32_cd_off (a b c d e : Nat) (X : List Nat) :
    rd32 (cdHeader a b c d e ++ X) 42 = e % 4294967296 := by
  simp [rd32, byteAt, cdHeader, u32le, u16le]
  omega

theorem rd32_eocd_sig (a b c : Nat) : rd32 (eocd a b c) 0 = 0x06054b50 := by
  have h : eocd a b c = u32le 0x06054b50 ++ (u16le 0 ++ u16le 0 ++ u16le a ++ u16le a ++
      u32le b ++ u32le c ++ u16le 0 ++ []) := by
    simp [eocd, List.append_assoc]
  rw [h, rd32_u32le]

theorem rd16_eocd_cnt1 (a b c : Nat) : rd16 (eocd a b c) 8 = a % 65536 := by
  simp [rd16, byteAt, eocd, u32le, u16le]
  omega

theorem rd16_eocd_cnt2 (a b c : Nat) : rd16 (eocd a b c) 10 = a % 65536 := by
  simp [rd16, byteAt, eocd, u32le, u16le]
  omega

theorem rd32_eocd_size (a b c : Nat) : rd32 (eocd a b c) 12 = b % 4294967296 := by
  simp [rd32, byteAt, eocd, u32le, u16le]
  omega

theorem rd32_eocd_off (a b c : Nat) : rd32 (eocd a b c) 16 = c % 4294967296 := by
  simp [rd32, byteAt, eocd, u32le, u16le]
  omega

theorem crcBit_lt (crc : Nat) (h : crc < 4294967296) : crcBit crc < 4294967296 := by
  unfold crcBit
  split
  · have h1 : crc / 2 < 4294967296 := by omega
    have h2 : (0xEDB88320 : Nat) < 4294967296 := by norm_num
    calc crc / 2 ^^^ 0xEDB88320 < 2 ^ 32 :=
          Nat.xor_lt_two_pow (by simpa using h1) (by norm_num)
      _ = 4294967296 := by norm_num
  · omega

theorem crcByte_lt (crc b : Nat) (hc : crc < 4294967296) (hb : b < 256) :
    crcByte crc b < 4294967296 := by
  unfold crcByte
  have h0 : crc ^^^ b < 4294967296 := by
    calc crc ^^^ b < 2 ^ 32 := Nat.xor_lt_two_pow (by simpa using hc) (by omega)
      _ = 4294967296 := by norm_num
  exact crcBit_lt _ (crcBit_lt _ (crcBit_lt _ (crcBit_lt _ (crcBit_lt _ (crcBit_lt _
    (crcBit_lt _ (crcBit_lt _ h0)))))))

theorem crc32_lt (l : List Nat) (h : ∀ b ∈ l, b < 256) : crc32 l < 4294967296 := by
  unfold crc32
  have key : ∀ (l : List Nat), (∀ b ∈ l, b < 256) → ∀ (c : Nat), c < 4294967296 →
      l.foldl crcByte c < 4294967296 := by
    intro l
    induction l with
    | nil => intro _ c hc; simpa using hc
    | cons x xs ih =>
      intro hx c hc
      simp only [List.foldl_cons]
      exact ih (fun b hb => hx b (List.mem_cons.2 (Or.inr hb))) _
        (crcByte_lt _ _ hc (hx x (List.mem_cons.2 (Or.inl rfl))))
  have hfold := key l h 0xFFFFFFFF (by norm_num)
  calc l.foldl crcByte 0xFFFFFFFF ^^^ 0xFFFFFFFF < 2 ^ 32 :=
        Nat.xor_lt_two_pow (by simpa using hfold) (by norm_num)
    _ = 4294967296 := by norm_num


/-- Parsing the local entry that `buildZip` wrote at `off` recovers the
entry's name bytes and its original payload. -/
theorem readLocal_ok (decomp defl : List Nat → List Nat)
    (hinv : ∀ b, decomp (defl b) = b)
    (zip rest : List Nat) (off : Nat) (name : String) (data : List Nat)
    (hdrop : zip.drop off = zipEntry defl name data ++ rest)
    (hname : (strBytes name).length < 65536)
    (hcomp : (defl data).length < 4294967296)
    (hbytes : ∀ b ∈ data, b < 256) :
    readLocal decomp zip off = some (strBytes name, data) := by
  have hassoc : zipEntry defl name data ++ rest =
      localHeader (crc32 data) (defl data).length data.length (strBytes name).length ++
        (strBytes name ++ (defl data ++ rest)) := by
    simp [zipEntry, List.append_assoc]
  have hrd32 : ∀ k, rd32 zip (off + k) = rd32 (zipEntry defl name data ++ rest) k := by
    intro k
    rw [← rd32_drop, hdrop]
  have hrd16 : ∀ k, rd16 zip (off + k) = rd16 (zipEntry defl name data ++ rest) k := by
    intro k
    rw [← rd16_drop, hdrop]
  have hsig : rd32 zip (off + 0) = 0x04034b50 := by
    rw [hrd32, hassoc, rd32_lh_sig]
  have hcompLen : rd32 zip (off + 18) = (defl data).length := by
    rw [hrd32, hassoc, rd32_lh_comp]
    omega
  have hnameLen : rd16 zip (off + 26) = (strBytes name).length := by
    rw [hrd16, hassoc, rd16_lh_name]
    omega
  have hcrc : rd32 zip (off + 14) = crc32 data := by
    rw [hrd32, hassoc, rd32_lh_crc]
    have := crc32_lt data hbytes
    omega
  have huncomp : rd32 zip (off + 22) = data.length % 4294967296 := by
    rw [hrd32, hassoc, rd32_lh_uncomp]
  have hdrop30 : zip.drop (off + 30) = strBytes name ++ (defl data ++ rest) := by
    rw [← List.drop_drop, hdrop, hassoc, List.drop_left' (localHeader_length _ _ _ _)]
  have hnm : (zip.drop (off + 30)).take (strBytes name).length = strBytes name := by
    rw [hdrop30, List.take_left]
  have hdropN : zip.drop (off + 30 + (strBytes name).length) = defl data ++ rest := by
    rw [← List.drop_drop, hdrop30, List.drop_left]
  have hcm : (zip.drop (off + 30 + (strBytes name).length)).take (defl data).length =
      defl data := by
    rw [hdropN, List.take_left]
  unfold readLocal
  rw [show off + 0 = off from rfl] at hsig
  rw [if_pos hsig, hcompLen, hnameLen]
  dsimp only
  rw [hnm, hcm, hinv data, hcrc, huncomp]
  simp


/-- Walking the central directory that `buildZip` wrote recovers every entry
in order. -/
theorem readCD_ok (decomp defl : List Nat → List Nat) (hinv : ∀ b, decomp (defl b) = b)
    (zip : List Nat) :
    ∀ (files : List (String × List Nat)) (off cdp : Nat) (tailE tailC : List Nat),
      zip.drop off = (zipParts defl files off).1.flatten ++ tailE →
      zip.drop cdp = (zipParts defl files off).2.flatten ++ tailC →
      off + ((zipParts defl files off).1.flatten).length ≤ 4294967296 →
      (∀ f ∈ files, (strBytes f.1).length < 65536 ∧ (defl f.2).length < 4294967296 ∧
        ∀ b ∈ f.2, b < 256) →
      readCD decomp zip files.length cdp = some (files.map (fun f => (strBytes f.1, f.2))) := by
  intro files
  induction files with
  | nil =>
    intro off cdp tailE tailC hE hC hlt hb
    simp [readCD]
  | cons f fs ih =>
    intro off cdp tailE tailC hE hC hlt hb
    obtain ⟨name, data⟩ := f
    obtain ⟨hname, hcomp, hbytes⟩ := hb (name, data) (List.mem_cons.2 (Or.inl rfl))
    have hname2 : (strBytes name).length < 65536 := hname
    have hcomp2 : (defl data).length < 4294967296 := hcomp
    simp only [zipParts] at hE hC hlt
    have hEntryLen : (zipEntry defl name data).length =
        30 + (strBytes name).length + (defl data).length := zipEntry_length defl name data
    have hE1 : zip.drop off = zipEntry defl name data ++
        ((zipParts defl fs (off + (zipEntry defl name data).length)).1.flatten ++ tailE) := by
      simpa [List.append_assoc] using hE
    have hC1 : zip.drop cdp = zipCD defl name data off ++
        ((zipParts defl fs (off + (zipEntry defl name data).length)).2.flatten ++ tailC) := by
      simpa [List.append_assoc] using hC
    rw [show ((zipEntry defl name data ::
        (zipParts defl fs (off + (zipEntry defl name data).length)).1)).flatten =
        zipEntry defl name data ++
          ((zipParts defl fs (off + (zipEntry defl name data).length)).1).flatten from rfl,
      List.length_append] at hlt
    have hltOff : off < 4294967296 := by omega
    have hCassoc : zip.drop cdp =
        cdHeader (crc32 data) (defl data).length data.length (strBytes name).length off ++
          (strBytes name ++
            ((zipParts defl fs (off + (zipEntry defl name data).length)).2.flatten ++ tailC)) := by
      simpa [zipCD, List.append_assoc] using hC1
    have hrd32c : ∀ k, rd32 zip (cdp + k) = rd32 (zip.drop cdp) k := by
      intro k
      rw [rd32_drop]
    have hrd16c : ∀ k, rd16 zip (cdp + k) = rd16 (zip.drop cdp) k := by
      intro k
      rw [rd16_drop]
    have hsig : rd32 zip (cdp + 0) = 0x02014b50 := by
      rw [hrd32c, hCassoc, rd32_cd_sig]
    have hnameLen : rd16 zip (cdp + 28) = (strBytes name).length := by
      rw [hrd16c, hCassoc, rd16_cd_name]
      omega
    have hlocalOff : rd32 zip (cdp + 42) = off := by
      rw [hrd32c, hCassoc, rd32_cd_off]
      omega
    have hloc : readLocal decomp zip off = some (strBytes name, data) :=
      readLocal_ok decomp defl hinv zip _ off name data hE1 hname hcomp hbytes
    have hE2 : zip.drop (off + (zipEntry defl name data).length) =
        (zipParts defl fs (off + (zipEntry defl name data).length)).1.flatten ++ tailE := by
      rw [← List.drop_drop, hE1, List.drop_left]
    have hC2 : zip.drop (cdp + (46 + (strBytes name).length)) =
        (zipParts defl fs (off + (zipEntry defl name data).length)).2.flatten ++ tailC := by
      rw [← List.drop_drop, hC1, List.drop_left' (zipCD_length defl name data off)]
    have hlt2 : off + (zipEntry defl name data).length +
        ((zipParts defl fs (off + (zipEntry defl name data).length)).1.flatten).length ≤
          4294967296 := by omega
    have hrec := ih (off + (zipEntry defl name data).length) (cdp + (46 + (strBytes name).length))
      tailE tailC hE2 hC2 hlt2
      (fun g hg => hb g (List.mem_cons.2 (Or.inr hg)))
    simp only [List.length_cons, readCD]
    rw [show cdp + 0 = cdp from rfl] at hsig
    rw [if_pos hsig, hnameLen, hlocalOff, hloc]
    rw [show cdp + 46 + (strBytes name).length = cdp + (46 + (strBytes name).length) from by omega]
    rw [hrec]
    simp


/-- C9.  For every ordered sequence of (name, bytes) entries whose fields fit
the fixed layout's 16/32-bit widths (names under 2^16 bytes, compressed
payloads and section sizes under 2^32, payload bytes < 256, fewer than 2^16
entries), parsing the writer's buffer with the conforming reader — for any
compressor `defl` with a matching decompressor `decomp` (zlib's contract for
`deflateRawSync`) — yields exactly the input entry names (as their UTF-8
bytes), each with payload byte-identical to its pre-compression input. -/
theorem c9_zip_roundtrip (defl decomp : List Nat → List Nat)
    (hinv : ∀ b, decomp (defl b) = b)
    (files : List (String × List Nat))
    (hb : ∀ f ∈ files, (strBytes f.1).length < 65536 ∧ (defl f.2).length < 4294967296 ∧
      ∀ b ∈ f.2, b < 256)
    (hcount : files.length < 65536)
    (hE : ((zipParts defl files 0).1.flatten).length < 4294967296)
    (hC : ((zipParts defl files 0).2.flatten).length < 4294967296) :
    readZip decomp (buildZip defl files) =
      some (files.map (fun f => (strBytes f.1, f.2))) := by
  have hzip : buildZip defl files =
      (zipParts defl files 0).1.flatten ++ (zipParts defl files 0).2.flatten ++
        eocd files.length ((zipParts defl files 0).2.flatten).length
          ((zipParts defl files 0).1.flatten).length := rfl
  have hlen : (buildZip defl files).length =
      ((zipParts defl files 0).1.flatten).length +
        ((zipParts defl files 0).2.flatten).length + 22 := by
    rw [hzip]
    simp [eocd_length]
    omega
  have he : (buildZip defl files).length - 22 =
      ((zipParts defl files 0).1.flatten).length +
        ((zipParts defl files 0).2.flatten).length := by omega
  have hdropE : (buildZip defl files).drop
      (((zipParts defl files 0).1.flatten).length +
        ((zipParts defl files 0).2.flatten).length) =
      eocd files.length ((zipParts defl files 0).2.flatten).length
        ((zipParts defl files 0).1.flatten).length := by
    rw [hzip]
    exact List.drop_left' (by simp)
  have hrdeocd32 : ∀ k, rd32 (buildZip defl files) ((buildZip defl files).length - 22 + k) =
      rd32 (eocd files.length ((zipParts defl files 0).2.flatten).length
        ((zipParts defl files 0).1.flatten).length) k := by
    intro k
    rw [he, ← hdropE, rd32_drop]
  have hrdeocd16 : ∀ k, rd16 (buildZip defl files) ((buildZip defl files).length - 22 + k) =
      rd16 (eocd files.length ((zipParts defl files 0).2.flatten).length
        ((zipParts defl files 0).1.flatten).length) k := by
    intro k
    rw [he, ← hdropE, rd16_drop]
  have hsig : rd32 (buildZip defl files) ((buildZip defl files).length - 22) = 0x06054b50 := by
    have := hrdeocd32 0
    rw [Nat.add_zero] at this
    rw [this, rd32_eocd_sig]
  have hcnt8 : rd16 (buildZip defl files) ((buildZip defl files).length - 22 + 8) =
      files.length := by
    rw [hrdeocd16, rd16_eocd_cnt1]
    omega
  have hcnt10 : rd16 (buildZip defl files) ((buildZip defl files).length - 22 + 10) =
      files.length := by
    rw [hrdeocd16, rd16_eocd_cnt2]
    omega
  have hsize : rd32 (buildZip defl files) ((buildZip defl files).length - 22 + 12) =
      ((zipParts defl files 0).2.flatten).length := by
    rw [hrdeocd32, rd32_eocd_size]
    omega
  have hoff : rd32 (buildZip defl files) ((buildZip defl files).length - 22 + 16) =
      ((zipParts defl files 0).1.flatten).length := by
    rw [hrdeocd32, rd32_eocd_off]
    omega
  have hrc : readCD decomp (buildZip defl files) files.length
      (((zipParts defl files 0).1.flatten).length) =
      some (files.map (fun f => (strBytes f.1, f.2))) := by
    refine readCD_ok decomp defl hinv _ files 0
      (((zipParts defl files 0).1.flatten).length)
      ((zipParts defl files 0).2.flatten ++
        eocd files.length ((zipParts defl files 0).2.flatten).length
          ((zipParts defl files 0).1.flatten).length)
      (eocd files.length ((zipParts defl files 0).2.flatten).length
        ((zipParts defl files 0).1.flatten).length)
      ?_ ?_ (by omega) hb
    · rw [List.drop_zero, hzip, List.append_assoc]
    · rw [hzip, List.append_assoc, List.drop_left]
  unfold readZip
  rw [if_pos (by omega : 22 ≤ (buildZip defl files).length)]
  rw [if_pos hsig]
  rw [hcnt8, hcnt10]
  rw [if_pos rfl]
  rw [hoff, hsize]
  rw [if_pos (by omega)]
  exact hrc


/-- A concrete two-entry archive input. -/
def files9 : List (String × List Nat) := [("a.txt", [104, 105]), ("b/c.bin", [0, 255, 7])]

/-- C9, witness: the round-trip theorem applied to `files9` with the identity
compressor/decompressor (a legitimate instance of the compressor contract). -/
theorem c9_zip_roundtrip_witness :
    files9.length < 65536 ∧
      ((zipParts id files9 0).1.flatten).length < 4294967296 ∧
      ((zipParts id files9 0).2.flatten).length < 4294967296 ∧
      readZip id (buildZip id files9) = some (files9.map (fun f => (strBytes f.1, f.2))) :=
  ⟨by decide, by decide, by decide,
    c9_zip_roundtrip id id (fun _ => rfl) files9 (by decide) (by decide) (by decide) (by decide)⟩


/-! ### Association-list and pointwise-relation helpers -/

section LookupHelpers

variable {α : Type} {β : Type} [BEq α] [LawfulBEq α]

theorem lookup_mem {l : List (α × β)} {k : α} {v : β}
    (h : List.lookup k l = some v) : (k, v) ∈ l := by
  obtain ⟨l1, l2, rfl, _⟩ := List.lookup_eq_some_iff.1 h
  simp

theorem lookup_eq_of_mem_nodup {l : List (α × β)} {k : α} {v : β}
    (hm : (k, v) ∈ l) (hnd : (l.map Prod.fst).Nodup) : List.lookup k l = some v := by
  induction l with
  | nil => simp at hm
  | cons p t ih =>
    obtain ⟨a, b⟩ := p
    simp only [List.map_cons, List.nodup_cons] at hnd
    rcases List.mem_cons.1 hm with h | h
    · obtain ⟨rfl, rfl⟩ := by simpa using h
      simp
    · have hak : (k == a) = false := by
        refine beq_eq_false_iff_ne.2 ?_
        intro rfl
        exact hnd.1 (List.mem_map.2 ⟨(k, v), h, rfl⟩)
      rw [List.lookup_cons, hak]
      exact ih h hnd.2

theorem lookup_append_right_of_keys {A B : List (α × β)} {k : α}
    (h : ∀ p ∈ A, p.1 ≠ k) : List.lookup k (A ++ B) = List.lookup k B := by
  have hA : List.lookup k A = none :=
    List.lookup_eq_none_iff.2 (fun p hp => by
      simpa using (h p hp).symm)
  rw [List.lookup_append, hA, Option.none_or]

end LookupHelpers

theorem forall₂_mem_right {α β : Type} {R : α → β → Prop} {A : List α} {B : List β}
    (h : List.Forall₂ R A B) {b : β} (hb : b ∈ B) : ∃ a ∈ A, R a b := by
  induction h with
  | nil => simp at hb
  | cons hr _ ih =>
    rcases List.mem_cons.1 hb with rfl | hb2
    · exact ⟨_, List.mem_cons.2 (Or.inl rfl), hr⟩
    · obtain ⟨a, ha, har⟩ := ih hb2
      exact ⟨a, List.mem_cons.2 (Or.inr ha), har⟩

theorem forall₂_mem_left {α β : Type} {R : α → β → Prop} {A : List α} {B : List β}
    (h : List.Forall₂ R A B) {a : α} (ha : a ∈ A) : ∃ b ∈ B, R a b := by
  induction h with
  | nil => simp at ha
  | cons hr _ ih =>
    rcases List.mem_cons.1 ha with rfl | ha2
    · exact ⟨_, List.mem_cons.2 (Or.inl rfl), hr⟩
    · obtain ⟨b, hb, hbr⟩ := ih ha2
      exact ⟨b, List.mem_cons.2 (Or.inr hb), hbr⟩


/-! ### Decomposition of `buildTopic` into named steps (definitionally equal) -/

/-- The pending-link entry recorded for one topic (source line 238). -/
def linkEntry (id : Nat) (lk : Option String) : List (Nat × String) :=
  match lk with
  | some s => if s = "" then [] else [(id, s)]
  | none => []

/-- The pending-dependency entry recorded for one topic (source line 256). -/
def depEntry (id : Nat) (c : TopicSpecCore) : List (Nat × List DepSpec) :=
  if hasTaskProps c && (c.dependencies.getD []).length > 0 then
    [(id, c.dependencies.getD [])]
  else []

/-- State after the link/dependency recording of one topic. -/
def recordRefs (id : Nat) (c : TopicSpecCore) (st : BState) : BState :=
  { st with
    pendingLinks := linkEntry id c.linkToTopic ++ st.pendingLinks,
    pendingDeps := depEntry id c ++ st.pendingDeps }

theorem linkEntry_mem {id : Nat} {lk : Option String} {p : Nat × String} :
    p ∈ linkEntry id lk ↔ lk = some p.2 ∧ p.2 ≠ "" ∧ p.1 = id := by
  cases lk with
  | none => simp [linkEntry]
  | some s =>
    by_cases hs : s = ""
    · subst hs
      simp only [linkEntry, if_pos rfl]
      constructor
      · intro h; simp at h
      · rintro ⟨he, hne, _⟩
        exact absurd (by simpa using he.symm) hne
    · simp only [linkEntry, if_neg hs]
      constructor
      · intro h
        obtain rfl := by simpa using h
        exact ⟨rfl, hs, rfl⟩
      · rintro ⟨he, hne, h1⟩
        obtain rfl := by simpa using he
        obtain ⟨a, b⟩ := p
        simp_all

theorem depEntry_mem {id : Nat} {c : TopicSpecCore} {p : Nat × List DepSpec} :
    p ∈ depEntry id c ↔
      (c.dependencies.getD []).length > 0 ∧ p = (id, c.dependencies.getD []) := by
  unfold depEntry
  by_cases hc : (c.dependencies.getD []).length > 0
  · have hd : c.dependencies.isSome = true := by
      cases hde : c.dependencies with
      | none => rw [hde] at hc; simp at hc
      | some l => rfl
    have ht : hasTaskProps c = true := by
      unfold hasTaskProps
      simp [hd]
    rw [ht]
    simp [hc]
  · have : (hasTaskProps c && decide ((c.dependencies.getD []).length > 0)) = false := by
      simp only [Bool.and_eq_false_iff]
      right
      simpa using hc
    simp only [gt_iff_lt, this, Bool.false_eq_true, if_false]
    simp [hc]

/-- Boundaries step (source lines 260–264). -/
def allocBoundariesOpt (bs : List BoundarySpec) (n : Nat) : Option (List BoundaryOut) × Nat :=
  if bs.length > 0 then
    let r := allocBoundaries bs n
    (some r.1, r.2)
  else (none, n)

/-- Summaries step (source lines 265–273). -/
def allocSummariesOpt (ss : List SummarySpec) (n : Nat) :
    Option (List SummaryOut) × Option (List SummaryTopicOut) × Nat :=
  if ss.length > 0 then
    let r := allocSummaries ss n
    (some r.1, some r.2.1, r.2.2)
  else (none, none, n)

/-- Callouts step (source lines 278–280). -/
def allocCalloutsOpt (cs : List String) (n : Nat) : Option (List Topic) × Nat :=
  if cs.length > 0 then
    let r := allocCallouts cs n
    (some r.1, r.2)
  else (none, n)

/-- Children step (source lines 275–277). -/
def buildChildren (dm : String → Int) (ch : List TopicSpec) (st : BState) :
    Option (List Topic) × BState :=
  if ch.length > 0 then
    let r := buildTopics dm ch st
    (some r.1, r.2)
  else (none, st)

theorem allocBoundaries_ctr (bs : List BoundarySpec) (n : Nat) :
    (allocBoundaries bs n).2 = n + bs.length := by
  induction bs generalizing n with
  | nil => simp [allocBoundaries]
  | cons b t ih => simp [allocBoundaries, ih]; omega

theorem allocSummaries_ctr (ss : List SummarySpec) (n : Nat) :
    (allocSummaries ss n).2.2 = n + 2 * ss.length := by
  induction ss generalizing n with
  | nil => simp [allocSummaries]
  | cons s t ih => simp [allocSummaries, ih]; omega

theorem allocCallouts_ctr (cs : List String) (n : Nat) :
    (allocCallouts cs n).2 = n + cs.length := by
  induction cs generalizing n with
  | nil => simp [allocCallouts]
  | cons c t ih => simp [allocCallouts, ih]; omega

theorem allocBoundariesOpt_ctr (bs : List BoundarySpec) (n : Nat) :
    n ≤ (allocBoundariesOpt bs n).2 := by
  unfold allocBoundariesOpt
  split
  · simp [allocBoundaries_ctr]
  · simp

theorem allocSummariesOpt_ctr (ss : List SummarySpec) (n : Nat) :
    n ≤ (allocSummariesOpt ss n).2.2 := by
  unfold allocSummariesOpt
  split
  · simp [allocSummaries_ctr]
  · simp

theorem allocCalloutsOpt_ctr (cs : List String) (n : Nat) :
    n ≤ (allocCalloutsOpt cs n).2 := by
  unfold allocCalloutsOpt
  split
  · simp [allocCallouts_ctr]
  · simp

/-- `buildTopic` unfolded into the named steps above; holds by definitional
unfolding of the original transcription. -/
theorem buildTopic_eq (dm : String → Int) (c : TopicSpecCore) (ch : List TopicSpec)
    (st0 : BState) :
    buildTopic dm (.mk c ch) st0 =
      (let id := st0.ctr
       let st1 : BState :=
         { st0 with ctr := st0.ctr + 1, titleToId := (c.title, id) :: st0.titleToId }
       let st3 := recordRefs id c st1
       let bres := allocBoundariesOpt (c.boundaries.getD []) st3.ctr
       let sres := allocSummariesOpt (c.summaryTopics.getD []) bres.2
       let ares := buildChildren dm ch { st3 with ctr := sres.2.2 }
       let cres := allocCalloutsOpt (c.callouts.getD []) ares.2.ctr
       (Topic.mk
         { id := id
           title := c.title
           structureClass := if truthy c.structureClass then c.structureClass else none
           notes := buildNotes c.notes
           href := if truthy c.href then c.href else none
           labels := c.labels
           markers :=
             if (c.markers.getD []).length > 0 then
               some ((c.markers.getD []).map MarkerOut.mk)
             else none
           extensions :=
             if hasTaskProps c then some [⟨taskProvider, mkTaskContent dm c⟩] else none
           boundaries := bres.1
           summaries := sres.1
           summary := sres.2.1 }
         ares.1 cres.1, { ares.2 with ctr := cres.2 })) := by
  show buildTopic dm (.mk c ch) st0 = _
  rw [buildTopic]
  cases hlk : c.linkToTopic with
  | none =>
    by_cases hd : hasTaskProps c && (c.dependencies.getD []).length > 0
    · simp [recordRefs, linkEntry, depEntry, hlk, hd, allocBoundariesOpt, allocSummariesOpt, allocCalloutsOpt, buildChildren]
    · simp [recordRefs, linkEntry, depEntry, hlk, hd, allocBoundariesOpt, allocSummariesOpt, allocCalloutsOpt, buildChildren]
  | some s =>
    by_cases hs : s = ""
    · subst hs
      by_cases hd : hasTaskProps c && (c.dependencies.getD []).length > 0
      · simp [recordRefs, linkEntry, depEntry, hlk, hd, allocBoundariesOpt, allocSummariesOpt, allocCalloutsOpt, buildChildren]
      · simp [recordRefs, linkEntry, depEntry, hlk, hd, allocBoundariesOpt, allocSummariesOpt, allocCalloutsOpt, buildChildren]
    · by_cases hd : hasTaskProps c && (c.dependencies.getD []).length > 0
      · simp [recordRefs, linkEntry, depEntry, hlk, hd, hs, allocBoundariesOpt, allocSummariesOpt, allocCalloutsOpt, buildChildren]
      · simp [recordRefs, linkEntry, depEntry, hlk, hd, hs, allocBoundariesOpt, allocSummariesOpt, allocCalloutsOpt, buildChildren]


/-! ### Characterization of pass 1's state evolution -/

theorem recordRefs_ctr (id : Nat) (c : TopicSpecCore) (st : BState) :
    (recordRefs id c st).ctr = st.ctr := rfl

theorem recordRefs_titleToId (id : Nat) (c : TopicSpecCore) (st : BState) :
    (recordRefs id c st).titleToId = st.titleToId := rfl

/-- What one `buildTopic` call guarantees: the counter advances, the root
gets the entry counter as id, each pending table grows by entries for
exactly this subtree's nodes (fresh keys, no duplicates), and every
(input node, built node) pair agrees on id range, title, and the task
extension. -/
def BTProps (dm : String → Int) (s : TopicSpec) (st : BState) (t : Topic) (st' : BState) :
    Prop :=
  st.ctr < st'.ctr ∧
  t.core.id = st.ctr ∧
  (pairsT s t).map Prod.fst = specNodes s ∧
  (∃ Δt, st'.titleToId = Δt ++ st.titleToId ∧
    (∀ p ∈ Δt, st.ctr ≤ p.2 ∧ p.2 < st'.ctr) ∧
    List.Perm (Δt.map Prod.fst) (specTitlesT s) ∧
    (∀ q ∈ pairsT s t, (q.1.core.title, q.2.core.id) ∈ Δt) ∧
    (∀ p ∈ Δt, ∃ q ∈ pairsT s t, q.1.core.title = p.1 ∧ q.2.core.id = p.2)) ∧
  (∃ Δl, st'.pendingLinks = Δl ++ st.pendingLinks ∧
    (∀ p ∈ Δl, st.ctr ≤ p.1 ∧ p.1 < st'.ctr) ∧
    (Δl.map Prod.fst).Nodup ∧
    (∀ q ∈ pairsT s t, ∀ τ, q.1.core.linkToTopic = some τ → τ ≠ "" →
      (q.2.core.id, τ) ∈ Δl)) ∧
  (∃ Δd, st'.pendingDeps = Δd ++ st.pendingDeps ∧
    (∀ p ∈ Δd, st.ctr ≤ p.1 ∧ p.1 < st'.ctr) ∧
    (Δd.map Prod.fst).Nodup ∧
    (∀ q ∈ pairsT s t, (q.1.core.dependencies.getD []).length > 0 →
      (q.2.core.id, q.1.core.dependencies.getD []) ∈ Δd)) ∧
  (∀ q ∈ pairsT s t, (st.ctr ≤ q.2.core.id ∧ q.2.core.id < st'.ctr) ∧
    q.2.core.title = q.1.core.title ∧
    q.2.core.extensions =
      (if hasTaskProps q.1.core then some [⟨taskProvider, mkTaskContent dm q.1.core⟩]
       else none))

/-- The list version of `BTProps`, over `pairsL`. -/
def BTLProps (dm : String → Int) (ss : List TopicSpec) (st : BState) (ts : List Topic)
    (st' : BState) : Prop :=
  st.ctr ≤ st'.ctr ∧
  (pairsL ss ts).map Prod.fst = specNodesL ss ∧
  (∃ Δt, st'.titleToId = Δt ++ st.titleToId ∧
    (∀ p ∈ Δt, st.ctr ≤ p.2 ∧ p.2 < st'.ctr) ∧
    List.Perm (Δt.map Prod.fst) (specTitlesL ss) ∧
    (∀ q ∈ pairsL ss ts, (q.1.core.title, q.2.core.id) ∈ Δt) ∧
    (∀ p ∈ Δt, ∃ q ∈ pairsL ss ts, q.1.core.title = p.1 ∧ q.2.core.id = p.2)) ∧
  (∃ Δl, st'.pendingLinks = Δl ++ st.pendingLinks ∧
    (∀ p ∈ Δl, st.ctr ≤ p.1 ∧ p.1 < st'.ctr) ∧
    (Δl.map Prod.fst).Nodup ∧
    (∀ q ∈ pairsL ss ts, ∀ τ, q.1.core.linkToTopic = some τ → τ ≠ "" →
      (q.2.core.id, τ) ∈ Δl)) ∧
  (∃ Δd, st'.pendingDeps = Δd ++ st.pendingDeps ∧
    (∀ p ∈ Δd, st.ctr ≤ p.1 ∧ p.1 < st'.ctr) ∧
    (Δd.map Prod.fst).Nodup ∧
    (∀ q ∈ pairsL ss ts, (q.1.core.dependencies.getD []).length > 0 →
      (q.2.core.id, q.1.core.dependencies.getD []) ∈ Δd)) ∧
  (∀ q ∈ pairsL ss ts, (st.ctr ≤ q.2.core.id ∧ q.2.core.id < st'.ctr) ∧
    q.2.core.title = q.1.core.title ∧
    q.2.core.extensions =
      (if hasTaskProps q.1.core then some [⟨taskProvider, mkTaskContent dm q.1.core⟩]
       else none))


/-- Concatenating two fresh-key deltas over adjacent counter ranges keeps
bounds and key distinctness. -/
theorem delta_append {γ : Type} {Δ2 Δ1 : List (Nat × γ)} {a b c : Nat}
    (hab : a ≤ b) (hbc : b ≤ c)
    (h2 : ∀ p ∈ Δ2, b ≤ p.1 ∧ p.1 < c) (h1 : ∀ p ∈ Δ1, a ≤ p.1 ∧ p.1 < b)
    (n2 : (Δ2.map Prod.fst).Nodup) (n1 : (Δ1.map Prod.fst).Nodup) :
    (∀ p ∈ Δ2 ++ Δ1, a ≤ p.1 ∧ p.1 < c) ∧ (((Δ2 ++ Δ1).map Prod.fst)).Nodup := by
  constructor
  · intro p hp
    rcases List.mem_append.1 hp with h | h
    · have := h2 p h
      omega
    · have := h1 p h
      omega
  · rw [List.map_append]
    refine List.Nodup.append n2 n1 ?_
    intro x hx2 hx1
    obtain ⟨p, hp, rfl⟩ := List.mem_map.1 hx2
    obtain ⟨p2, hp2, he⟩ := List.mem_map.1 hx1
    have hbp := h2 p hp
    have hbp2 := h1 p2 hp2
    rw [he] at hbp2
    omega




/-- The builder state just before a topic's children are built: title bound,
pending entries recorded, boundary and summary identifiers allocated. -/
def preState (c : TopicSpecCore) (st0 : BState) : BState :=
  { recordRefs st0.ctr c
      { st0 with ctr := st0.ctr + 1, titleToId := (c.title, st0.ctr) :: st0.titleToId } with
    ctr := (allocSummariesOpt (c.summaryTopics.getD [])
      (allocBoundariesOpt (c.boundaries.getD []) (st0.ctr + 1)).2).2.2 }

theorem preState_titleToId (c : TopicSpecCore) (st0 : BState) :
    (preState c st0).titleToId = (c.title, st0.ctr) :: st0.titleToId := rfl

theorem preState_pendingLinks (c : TopicSpecCore) (st0 : BState) :
    (preState c st0).pendingLinks = linkEntry st0.ctr c.linkToTopic ++ st0.pendingLinks := rfl

theorem preState_pendingDeps (c : TopicSpecCore) (st0 : BState) :
    (preState c st0).pendingDeps = depEntry st0.ctr c ++ st0.pendingDeps := rfl

theorem preState_ctr (c : TopicSpecCore) (st0 : BState) :
    st0.ctr + 1 ≤ (preState c st0).ctr := by
  show st0.ctr + 1 ≤ (allocSummariesOpt (c.summaryTopics.getD [])
    (allocBoundariesOpt (c.boundaries.getD []) (st0.ctr + 1)).2).2.2
  have h1 := allocBoundariesOpt_ctr (c.boundaries.getD []) (st0.ctr + 1)
  have h2 := allocSummariesOpt_ctr (c.summaryTopics.getD [])
    (allocBoundariesOpt (c.boundaries.getD []) (st0.ctr + 1)).2
  omega

/-- The scalar part of the topic object `buildTopic` assembles. -/
def builtCore (dm : String → Int) (c : TopicSpecCore) (n : Nat) : TopicCore :=
  { id := n
    title := c.title
    structureClass := if truthy c.structureClass then c.structureClass else none
    notes := buildNotes c.notes
    href := if truthy c.href then c.href else none
    labels := c.labels
    markers :=
      if (c.markers.getD []).length > 0 then some ((c.markers.getD []).map MarkerOut.mk)
      else none
    extensions := if hasTaskProps c then some [⟨taskProvider, mkTaskContent dm c⟩] else none
    boundaries := (allocBoundariesOpt (c.boundaries.getD []) (n + 1)).1
    summaries := (allocSummariesOpt (c.summaryTopics.getD [])
      (allocBoundariesOpt (c.boundaries.getD []) (n + 1)).2).1
    summary := (allocSummariesOpt (c.summaryTopics.getD [])
      (allocBoundariesOpt (c.boundaries.getD []) (n + 1)).2).2.1 }

/-- `buildTopic` in terms of `builtCore`, `preState`, `buildChildren` and the
callout allocation. -/
theorem buildTopic_eq2 (dm : String → Int) (c : TopicSpecCore) (ch : List TopicSpec)
    (st0 : BState) :
    buildTopic dm (.mk c ch) st0 =
      (Topic.mk (builtCore dm c st0.ctr)
        (buildChildren dm ch (preState c st0)).1
        (allocCalloutsOpt (c.callouts.getD [])
          ((buildChildren dm ch (preState c st0)).2).ctr).1,
       { (buildChildren dm ch (preState c st0)).2 with
         ctr := (allocCalloutsOpt (c.callouts.getD [])
           ((buildChildren dm ch (preState c st0)).2).ctr).2 }) := by
  rw [buildTopic_eq]
  rfl

theorem linkEntry_nodup (id : Nat) (lk : Option String) :
    ((linkEntry id lk).map Prod.fst).Nodup := by
  cases lk with
  | none => simp [linkEntry]
  | some s =>
    by_cases hs : s = ""
    · simp [linkEntry, hs]
    · simp [linkEntry, hs]

theorem depEntry_nodup (id : Nat) (c : TopicSpecCore) :
    ((depEntry id c).map Prod.fst).Nodup := by
  by_cases hc : (hasTaskProps c && decide ((c.dependencies.getD []).length > 0)) = true
  · simp [depEntry, hc]
  · simp [depEntry, hc]

theorem linkEntry_bounds {id : Nat} {lk : Option String} {p : Nat × String}
    (hp : p ∈ linkEntry id lk) : p.1 = id := (linkEntry_mem.1 hp).2.2

theorem depEntry_bounds {id : Nat} {c : TopicSpecCore} {p : Nat × List DepSpec}
    (hp : p ∈ depEntry id c) : p.1 = id := by
  have := (depEntry_mem.1 hp).2
  rw [this]


theorem specTitlesT_node (c : TopicSpecCore) (ch : List TopicSpec) :
    specTitlesT (.mk c ch) = c.title :: specTitlesL ch := rfl

theorem specTitlesL_cons (s : TopicSpec) (rest : List TopicSpec) :
    specTitlesL (s :: rest) = specTitlesT s ++ specTitlesL rest := by
  simp [specTitlesL, specTitlesT, specNodesL]

/-- Assembling `BTProps` for one node from the children's `BTLProps`. -/
theorem btprops_assemble (dm : String → Int) (c : TopicSpecCore) (ch : List TopicSpec)
    (st0 : BState) (ts : List Topic) (stC : BState) (att : Option (List Topic))
    (call : Option (List Topic)) (n7 : Nat)
    (hmatch : (match att with | none => [] | some l => pairsL ch l) = pairsL ch ts)
    (P : BTLProps dm ch (preState c st0) ts stC)
    (hn7 : stC.ctr ≤ n7) :
    BTProps dm (.mk c ch) st0 (Topic.mk (builtCore dm c st0.ctr) att call)
      { stC with ctr := n7 } := by
  obtain ⟨hc2, hmap2, ⟨Δt2, ht2, htb2, htp2, htf2, htm2⟩, ⟨Δl2, hl2, hlb2, hln2, hlm2⟩,
    ⟨Δd2, hd2, hdb2, hdn2, hdm2⟩, hq2⟩ := P
  have hPSc := preState_ctr c st0
  have hPt := preState_titleToId c st0
  have hPl := preState_pendingLinks c st0
  have hPd := preState_pendingDeps c st0
  have hpairs : pairsT (.mk c ch) (Topic.mk (builtCore dm c st0.ctr) att call) =
      (TopicSpec.mk c ch, Topic.mk (builtCore dm c st0.ctr) att call) :: pairsL ch ts := by
    rw [pairsT]
    rw [show (Topic.mk (builtCore dm c st0.ctr) att call).attached = att from rfl, hmatch]
  unfold BTProps
  rw [hpairs]
  have hctr2 : ({ stC with ctr := n7 } : BState).ctr = n7 := rfl
  simp only [hctr2]
  refine ⟨?_, rfl, ?_, ?_, ?_, ?_, ?_⟩
  · show st0.ctr < n7
    omega
  · rw [List.map_cons, hmap2, specNodes]
  · refine ⟨Δt2 ++ [(c.title, st0.ctr)], ?_, ?_, ?_, ?_, ?_⟩
    · show stC.titleToId = _
      rw [ht2, hPt, List.append_assoc]
      rfl
    · intro p hp
      rcases List.mem_append.1 hp with hp2 | hph
      · have := htb2 p hp2
        constructor <;> omega
      · obtain rfl := by simpa using hph
        constructor <;> [omega; omega]
    · rw [List.map_append, specTitlesT_node]
      exact (List.perm_append_comm).trans (htp2.cons c.title)
    · intro q hq
      rcases List.mem_cons.1 hq with rfl | hqt
      · exact List.mem_append.2 (Or.inr (List.mem_singleton.2 rfl))
      · exact List.mem_append.2 (Or.inl (htf2 q hqt))
    · intro p hp
      rcases List.mem_append.1 hp with hp2 | hph
      · obtain ⟨q, hq, hqq⟩ := htm2 p hp2
        exact ⟨q, List.mem_cons.2 (Or.inr hq), hqq⟩
      · obtain rfl := by simpa using hph
        exact ⟨(TopicSpec.mk c ch, Topic.mk (builtCore dm c st0.ctr) att call),
          List.mem_cons.2 (Or.inl rfl), rfl, rfl⟩
  · have hbnds := delta_append (a := st0.ctr) (b := (preState c st0).ctr) (c := n7)
      (by omega) (by omega)
      (fun p hp => ⟨(hlb2 p hp).1, by have := (hlb2 p hp).2; omega⟩)
      (fun p hp => by have := linkEntry_bounds hp; constructor <;> omega)
      hln2 (linkEntry_nodup st0.ctr c.linkToTopic)
    refine ⟨Δl2 ++ linkEntry st0.ctr c.linkToTopic, ?_, hbnds.1, hbnds.2, ?_⟩
    · show stC.pendingLinks = _
      rw [hl2, hPl, List.append_assoc]
    · intro q hq τ hτ hne
      rcases List.mem_cons.1 hq with rfl | hqt
      · exact List.mem_append.2 (Or.inr (linkEntry_mem.2 ⟨hτ, hne, rfl⟩))
      · exact List.mem_append.2 (Or.inl (hlm2 q hqt τ hτ hne))
  · have hbnds := delta_append (a := st0.ctr) (b := (preState c st0).ctr) (c := n7)
      (by omega) (by omega)
      (fun p hp => ⟨(hdb2 p hp).1, by have := (hdb2 p hp).2; omega⟩)
      (fun p hp => by have := depEntry_bounds hp; constructor <;> omega)
      hdn2 (depEntry_nodup st0.ctr c)
    refine ⟨Δd2 ++ depEntry st0.ctr c, ?_, hbnds.1, hbnds.2, ?_⟩
    · show stC.pendingDeps = _
      rw [hd2, hPd, List.append_assoc]
    · intro q hq hlen
      rcases List.mem_cons.1 hq with rfl | hqt
      · exact List.mem_append.2 (Or.inr (depEntry_mem.2 ⟨hlen, rfl⟩))
      · exact List.mem_append.2 (Or.inl (hdm2 q hqt hlen))
  · intro q hq
    rcases List.mem_cons.1 hq with rfl | hqt
    · refine ⟨⟨?_, ?_⟩, rfl, rfl⟩
      · show st0.ctr ≤ st0.ctr
        omega
      · show st0.ctr < n7
        omega
    · obtain ⟨⟨hb1, hb2⟩, hrest⟩ := hq2 q hqt
      refine ⟨⟨?_, ?_⟩, hrest⟩
      · show st0.ctr ≤ q.2.core.id
        omega
      · show q.2.core.id < n7
        omega

mutual

theorem buildTopic_spec (dm : String → Int) :
    ∀ (s : TopicSpec) (st : BState) (t : Topic) (st2 : BState),
      buildTopic dm s st = (t, st2) → BTProps dm s st t st2
  | .mk c ch, st0, t, st2, h => by
    rw [buildTopic_eq2] at h
    by_cases hch : 0 < ch.length
    · rw [show buildChildren dm ch (preState c st0) =
          (some (buildTopics dm ch (preState c st0)).1,
            (buildTopics dm ch (preState c st0)).2) from by
        rw [buildChildren, if_pos hch]] at h
      rcases hbt : buildTopics dm ch (preState c st0) with ⟨ts, stC⟩
      rw [hbt] at h
      simp only at h
      obtain ⟨rfl, rfl⟩ := by simpa using h.symm
      exact btprops_assemble dm c ch st0 ts stC (some ts) _ _ rfl
        (buildTopics_spec dm ch (preState c st0) ts stC hbt)
        (allocCalloutsOpt_ctr _ _)
    · have hch0 : ch = [] := List.length_eq_zero.1 (by omega)
      subst hch0
      rw [show buildChildren dm [] (preState c st0) = (none, preState c st0) from by
        rw [buildChildren]
        simp] at h
      simp only at h
      obtain ⟨rfl, rfl⟩ := by simpa using h.symm
      exact btprops_assemble dm c [] st0 [] (preState c st0) none _ _ rfl
        (buildTopics_spec dm [] (preState c st0) [] (preState c st0) rfl)
        (allocCalloutsOpt_ctr _ _)

theorem buildTopics_spec (dm : String → Int) :
    ∀ (ss : List TopicSpec) (st : BState) (ts : List Topic) (st2 : BState),
      buildTopics dm ss st = (ts, st2) → BTLProps dm ss st ts st2
  | [], st, ts, st2, h => by
    obtain ⟨rfl, rfl⟩ := by simpa [buildTopics] using h.symm
    unfold BTLProps
    refine ⟨le_refl _, by simp [pairsL, specNodesL], ⟨[], by simp, by simp,
        by simp [specTitlesL, specNodesL], by simp [pairsL], by simp⟩,
      ⟨[], by simp, by simp, by simp, by simp [pairsL]⟩,
      ⟨[], by simp, by simp, by simp, by simp [pairsL]⟩, by simp [pairsL]⟩
  | s :: rest, st, ts, st2, h => by
    simp only [buildTopics] at h
    rcases h1 : buildTopic dm s st with ⟨t1, st1⟩
    rcases h2 : buildTopics dm rest st1 with ⟨ts2, stL⟩
    rw [h1] at h
    simp only at h
    rw [h2] at h
    simp only at h
    obtain ⟨rfl, rfl⟩ := by simpa using h.symm
    have P1 := buildTopic_spec dm s st t1 st1 h1
    have P2 := buildTopics_spec dm rest st1 ts2 st2 h2
    unfold BTProps at P1
    unfold BTLProps at P2 ⊢
    obtain ⟨hc1, hid1, hmap1, ⟨Δt1, ht1, htb1, htp1, htf1, htm1⟩, ⟨Δl1, hl1, hlb1, hln1, hlm1⟩,
      ⟨Δd1, hd1, hdb1, hdn1, hdm1⟩, hq1⟩ := P1
    obtain ⟨hc2, hmap2, ⟨Δt2, ht2, htb2, htp2, htf2, htm2⟩, ⟨Δl2, hl2, hlb2, hln2, hlm2⟩,
      ⟨Δd2, hd2, hdb2, hdn2, hdm2⟩, hq2⟩ := P2
    simp only [pairsL]
    refine ⟨by omega, ?_, ?_, ?_, ?_, ?_⟩
    · rw [List.map_append, hmap1, hmap2, specNodesL]
    · refine ⟨Δt2 ++ Δt1, by rw [ht2, ht1, List.append_assoc], ?_, ?_, ?_, ?_⟩
      · intro p hp
        rcases List.mem_append.1 hp with hp2 | hp1
        · have := htb2 p hp2
          constructor <;> omega
        · have := htb1 p hp1
          constructor <;> omega
      · rw [List.map_append, specTitlesL_cons]
        exact (List.perm_append_comm).trans (htp1.append htp2)
      · intro q hq
        rcases List.mem_append.1 hq with hqh | hqt
        · exact List.mem_append.2 (Or.inr (htf1 q hqh))
        · exact List.mem_append.2 (Or.inl (htf2 q hqt))
      · intro p hp
        rcases List.mem_append.1 hp with hp2 | hp1
        · obtain ⟨q, hq, hqq⟩ := htm2 p hp2
          exact ⟨q, List.mem_append.2 (Or.inr hq), hqq⟩
        · obtain ⟨q, hq, hqq⟩ := htm1 p hp1
          exact ⟨q, List.mem_append.2 (Or.inl hq), hqq⟩
    · obtain ⟨hbnds, hnd⟩ := delta_append (Nat.le_of_lt hc1) hc2
        (fun p hp => hlb2 p hp) (fun p hp => hlb1 p hp) hln2 hln1
      refine ⟨Δl2 ++ Δl1, by rw [hl2, hl1, List.append_assoc], hbnds, hnd, ?_⟩
      intro q hq τ hτ hne
      rcases List.mem_append.1 hq with hqh | hqt
      · exact List.mem_append.2 (Or.inr (hlm1 q hqh τ hτ hne))
      · exact List.mem_append.2 (Or.inl (hlm2 q hqt τ hτ hne))
    · obtain ⟨hbnds, hnd⟩ := delta_append (Nat.le_of_lt hc1) hc2
        (fun p hp => hdb2 p hp) (fun p hp => hdb1 p hp) hdn2 hdn1
      refine ⟨Δd2 ++ Δd1, by rw [hd2, hd1, List.append_assoc], hbnds, hnd, ?_⟩
      intro q hq hlen
      rcases List.mem_append.1 hq with hqh | hqt
      · exact List.mem_append.2 (Or.inr (hdm1 q hqh hlen))
      · exact List.mem_append.2 (Or.inl (hdm2 q hqt hlen))
    · intro q hq
      rcases List.mem_append.1 hq with hqh | hqt
      · obtain ⟨hb, hrest⟩ := hq1 q hqh
        exact ⟨⟨by omega, by omega⟩, hrest⟩
      · obtain ⟨hb, hrest⟩ := hq2 q hqt
        exact ⟨⟨by omega, by omega⟩, hrest⟩

end


/-! ### Facts about the two resolution passes -/

mutual

/-- All topics of a built tree reachable through `attached` children (the
nodes `resolveDependencies` visits). -/
def topicsOf : Topic → List Topic
  | .mk c att call =>
    .mk c att call ::
      (match att with
       | none => []
       | some ts => topicsOfL ts)

def topicsOfL : List Topic → List Topic
  | [] => []
  | t :: ts => topicsOf t ++ topicsOfL ts

end

mutual

theorem pairsT_mem_topicsOf : ∀ (s : TopicSpec) (t : Topic) (q : TopicSpec × Topic),
    q ∈ pairsT s t → q.2 ∈ topicsOf t
  | .mk c ch, .mk tc att call, q, hq => by
    rw [pairsT] at hq
    rcases List.mem_cons.1 hq with hq1 | hq2
    · rw [hq1, topicsOf.eq_def]
      exact List.mem_cons.2 (Or.inl rfl)
    · rw [show (Topic.mk tc att call).attached = att from rfl] at hq2
      cases att with
      | none => simp at hq2
      | some ts =>
        have := pairsL_mem_topicsOfL ch ts q hq2
        rw [topicsOf.eq_def]
        exact List.mem_cons.2 (Or.inr this)
  termination_by s _ _ _ => sizeOf s

theorem pairsL_mem_topicsOfL : ∀ (ss : List TopicSpec) (ts : List Topic) (q : TopicSpec × Topic),
    q ∈ pairsL ss ts → q.2 ∈ topicsOfL ts
  | [], ts, q, hq => by simp [pairsL] at hq
  | s :: ss, [], q, hq => by simp [pairsL] at hq
  | s :: ss, t :: ts, q, hq => by
    rw [pairsL] at hq
    rw [topicsOfL]
    rcases List.mem_append.1 hq with h | h
    · exact List.mem_append.2 (Or.inl (pairsT_mem_topicsOf s t q h))
    · exact List.mem_append.2 (Or.inr (pairsL_mem_topicsOfL ss ts q h))
  termination_by ss _ _ _ => sizeOf ss

end

theorem resolveDepList_error_shape (idx : List (Option String × Nat)) :
    ∀ (ds : List DepSpec) (e : BErr), resolveDepList idx ds = .error e →
      ∃ τ, e = .depNotFound τ := by
  intro ds
  induction ds with
  | nil => intro e h; simp [resolveDepList] at h
  | cons d rest ih =>
    intro e h
    rw [resolveDepList] at h
    split at h
    · obtain rfl := by simpa using h
      exact ⟨d.targetTitle, rfl⟩
    · split at h
      · obtain rfl := by simpa using h
        next e2 he2 =>
        exact ih e2 he2
      · simp at h

theorem resolveDepList_ok_forces (idx : List (Option String × Nat)) :
    ∀ (ds : List DepSpec) (outs : List DepOut), resolveDepList idx ds = .ok outs →
      ∀ d ∈ ds, (List.lookup (some d.targetTitle) idx).isSome := by
  intro ds
  induction ds with
  | nil => intro outs h d hd; simp at hd
  | cons d0 rest ih =>
    intro outs h d hd
    rw [resolveDepList] at h
    split at h
    · simp at h
    · next tid htid =>
      split at h
      · simp at h
      · next outs2 houts =>
        rcases List.mem_cons.1 hd with rfl | hd2
        · simp [htid]
        · exact ih outs2 houts d hd2


mutual

theorem resolveDeps_error_shape (pd : List (Nat × List DepSpec))
    (idx : List (Option String × Nat)) :
    ∀ (t : Topic) (e : BErr), resolveDeps pd idx t = .error e → ∃ τ, e = .depNotFound τ
  | .mk core att call, e, h => by
    rw [resolveDeps] at h
    split at h
    · next e2 he2 =>
      obtain rfl := by simpa using h
      split at he2
      · split at he2
        · split at he2
          · next e3 he3 =>
            obtain rfl := by simpa using he2
            exact resolveDepList_error_shape idx _ e3 he3
          · simp at he2
        · simp at he2
      · simp at he2
    · split at h
      · simp at h
      · split at h
        · next e2 he2 =>
          obtain rfl := by simpa using h
          exact resolveDepsL_error_shape pd idx _ e2 he2
        · simp at h
  termination_by t _ _ => sizeOf t

theorem resolveDepsL_error_shape (pd : List (Nat × List DepSpec))
    (idx : List (Option String × Nat)) :
    ∀ (ts : List Topic) (e : BErr), resolveDepsList pd idx ts = .error e →
      ∃ τ, e = .depNotFound τ
  | [], e, h => by simp [resolveDepsList] at h
  | t :: ts, e, h => by
    rw [resolveDepsList] at h
    split at h
    · next e2 he2 =>
      obtain rfl := by simpa using h
      exact resolveDeps_error_shape pd idx t e2 he2
    · split at h
      · next e2 he2 =>
        obtain rfl := by simpa using h
        exact resolveDepsL_error_shape pd idx ts e2 he2
      · simp at h
  termination_by ts _ _ => sizeOf ts

end


mutual

/-- If the dependency pass succeeded, every dependency list reachable from
the pending table through a topic with a task extension resolved all its
target titles. -/
theorem resolveDeps_ok_forces (pd : List (Nat × List DepSpec))
    (idx : List (Option String × Nat)) :
    ∀ (t t2 : Topic), resolveDeps pd idx t = .ok t2 →
      ∀ tq ∈ topicsOf t, ∀ ds, List.lookup tq.core.id pd = some ds →
        ∀ exts, tq.core.extensions = some exts →
          (exts.find? (fun e => e.provider == taskProvider)).isSome →
          ∀ d ∈ ds, (List.lookup (some d.targetTitle) idx).isSome
  | .mk core att call, t2, h, tq, htq, ds, hds, exts, hexts, hfind, d, hd => by
    rw [resolveDeps] at h
    rw [topicsOf.eq_def] at htq
    rcases List.mem_cons.1 htq with hq1 | hq2
    · subst hq1
      split at h
      · simp at h
      · next core2 hcore =>
        have hds2 : List.lookup core.id pd = some ds := hds
        have hexts2 : core.extensions = some exts := hexts
        split at hcore
        · next ds2 exts2 hlk hex =>
          rw [hds2] at hlk
          rw [hexts2] at hex
          obtain rfl := by simpa using hlk
          obtain rfl := by simpa using hex
          split at hcore
          · split at hcore
            · simp at hcore
            · next outs houts =>
              exact resolveDepList_ok_forces idx ds outs houts d hd
          · next hnf =>
            exact absurd hfind hnf
        · next hnone =>
          exact (hnone ds exts (by rw [hds2]) (by rw [hexts2])).elim
    · cases att with
      | none => simp at hq2
      | some ts =>
        split at h
        · simp at h
        · next core2 hcore =>
          dsimp only at h
          split at h
          · simp at h
          · next ts2 hts =>
            exact resolveDepsL_ok_forces pd idx ts ts2 hts tq (by simpa using hq2) ds hds
              exts hexts hfind d hd
  termination_by t => sizeOf t

theorem resolveDepsL_ok_forces (pd : List (Nat × List DepSpec))
    (idx : List (Option String × Nat)) :
    ∀ (ts ts2 : List Topic), resolveDepsList pd idx ts = .ok ts2 →
      ∀ tq ∈ topicsOfL ts, ∀ ds, List.lookup tq.core.id pd = some ds →
        ∀ exts, tq.core.extensions = some exts →
          (exts.find? (fun e => e.provider == taskProvider)).isSome →
          ∀ d ∈ ds, (List.lookup (some d.targetTitle) idx).isSome
  | [], ts2, h, tq, htq, ds, hds, exts, hexts, hfind, d, hd => by simp [topicsOfL] at htq
  | t :: ts, ts2, h, tq, htq, ds, hds, exts, hexts, hfind, d, hd => by
    rw [resolveDepsList] at h
    rw [topicsOfL] at htq
    split at h
    · simp at h
    · next t2 ht2 =>
      split at h
      · simp at h
      · next rest2 hrest =>
        rcases List.mem_append.1 htq with hq1 | hq2
        · exact resolveDeps_ok_forces pd idx t t2 ht2 tq hq1 ds hds exts hexts hfind d hd
        · exact resolveDepsL_ok_forces pd idx ts rest2 hrest tq hq2 ds hds exts hexts hfind d hd
  termination_by ts => sizeOf ts

end


theorem pairsL_nil : ∀ ss : List TopicSpec, pairsL ss ([] : List Topic) = [] := by
  intro ss
  cases ss <;> simp [pairsL]

theorem forall2_append {α β : Type} {R : α → β → Prop} :
    ∀ {a : List α} {b : List β} {c : List α} {d : List β},
      List.Forall₂ R a b → List.Forall₂ R c d → List.Forall₂ R (a ++ c) (b ++ d) := by
  intro a b c d h1 h2
  induction h1 with
  | nil => simpa using h2
  | cons hR _ ih => exact List.Forall₂.cons hR ih

theorem forall2_getD {α β : Type} {R : α → β → Prop} :
    ∀ {a : List α} {b : List β}, List.Forall₂ R a b →
      ∀ (d1 : α) (d2 : β) (i : Nat), i < a.length → R (a.getD i d1) (b.getD i d2) := by
  intro a b h
  induction h with
  | nil => intro d1 d2 i hi; simp at hi
  | cons hR _ ih =>
    intro d1 d2 i hi
    cases i with
    | zero => simpa using hR
    | succ j => exact ih d1 d2 j (by simpa using hi)

/-- What `resolveDependencies` keeps of each paired node: the input node and
the built node's identifier, title and link. -/
def depKeep (q r : TopicSpec × Topic) : Prop :=
  r.1 = q.1 ∧ r.2.core.id = q.2.core.id ∧ r.2.core.title = q.2.core.title ∧
    r.2.core.href = q.2.core.href

mutual

/-- `resolveDependencies` rewrites only task extensions: the node pairing,
identifiers, titles and links survive it. -/
theorem resolveDeps_pairs (pd : List (Nat × List DepSpec))
    (idx : List (Option String × Nat)) :
    ∀ (t t' : Topic), resolveDeps pd idx t = .ok t' →
      ∀ s : TopicSpec, List.Forall₂ depKeep (pairsT s t) (pairsT s t')
  | .mk core att call, t', h, s => by
    rw [resolveDeps] at h
    split at h
    · simp at h
    · next core' hcore =>
      have hkeep : core'.id = core.id ∧ core'.title = core.title ∧
          core'.href = core.href := by
        split at hcore
        · next ds2 exts2 hlk hex =>
          split at hcore
          · split at hcore
            · simp at hcore
            · next outs houts =>
              obtain rfl := by simpa using hcore
              exact ⟨rfl, rfl, rfl⟩
          · obtain rfl := by simpa using hcore
            exact ⟨rfl, rfl, rfl⟩
        · obtain rfl := by simpa using hcore
          exact ⟨rfl, rfl, rfl⟩
      cases s with
      | mk c ch =>
        cases att with
        | none =>
          dsimp only at h
          obtain rfl := by simpa using h
          simp only [pairsT, Topic.attached]
          exact List.Forall₂.cons ⟨rfl, hkeep.1, hkeep.2.1, hkeep.2.2⟩ List.Forall₂.nil
        | some ts =>
          dsimp only at h
          split at h
          · simp at h
          · next ts' hts =>
            obtain rfl := by simpa using h
            simp only [pairsT, Topic.attached]
            exact List.Forall₂.cons ⟨rfl, hkeep.1, hkeep.2.1, hkeep.2.2⟩
              (resolveDepsL_pairs pd idx ts ts' hts ch)
  termination_by t => sizeOf t

theorem resolveDepsL_pairs (pd : List (Nat × List DepSpec))
    (idx : List (Option String × Nat)) :
    ∀ (ts ts' : List Topic), resolveDepsList pd idx ts = .ok ts' →
      ∀ ss : List TopicSpec, List.Forall₂ depKeep (pairsL ss ts) (pairsL ss ts')
  | [], ts', h, ss => by
    obtain rfl := by simpa [resolveDepsList] using h
    rw [pairsL_nil]
    exact List.Forall₂.nil
  | t :: ts, ts', h, ss => by
    rw [resolveDepsList] at h
    split at h
    · simp at h
    · next t2 ht2 =>
      split at h
      · simp at h
      · next rest2 hrest =>
        obtain rfl := by simpa using h
        cases ss with
        | nil => simp only [pairsL]; exact List.Forall₂.nil
        | cons s ss2 =>
          simp only [pairsL]
          exact forall2_append (resolveDeps_pairs pd idx t t2 ht2 s)
            (resolveDepsL_pairs pd idx ts rest2 hrest ss2)
  termination_by ts => sizeOf ts

end


/-- What `resolveLinks` guarantees at each paired node: pairing, identifier
and title survive, and a pending link forces the resolved `xmind:#` href. -/
def linkKeep (pl : List (Nat × String)) (idx : List (Option String × Nat))
    (q r : TopicSpec × Topic) : Prop :=
  r.1 = q.1 ∧ r.2.core.id = q.2.core.id ∧ r.2.core.title = q.2.core.title ∧
    ∀ τ, List.lookup q.2.core.id pl = some τ → τ ≠ "" →
      ∃ tid, List.lookup (some τ) idx = some tid ∧
        r.2.core.href = some (xmindHref tid)

mutual

/-- A successful link pass keeps the node pairing, identifiers and titles,
and rewrites each pending-link holder's href to the indexed target. -/
theorem resolveLinks_pairs (pl : List (Nat × String))
    (idx : List (Option String × Nat)) :
    ∀ (t t' : Topic), resolveLinks pl idx t = .ok t' →
      ∀ s : TopicSpec, List.Forall₂ (linkKeep pl idx) (pairsT s t) (pairsT s t')
  | .mk core att call, t', h, s => by
    rw [resolveLinks] at h
    split at h
    · simp at h
    · next core' hcore =>
      have hkeep : core'.id = core.id ∧ core'.title = core.title ∧
          ∀ τ, List.lookup core.id pl = some τ → τ ≠ "" →
            ∃ tid, List.lookup (some τ) idx = some tid ∧
              core'.href = some (xmindHref tid) := by
        split at hcore
        · next tt hlk =>
          split at hcore
          · next he =>
            obtain rfl := by simpa using hcore
            refine ⟨rfl, rfl, ?_⟩
            intro τ hτ hne
            rw [hlk] at hτ
            obtain rfl := by simpa using hτ
            exact absurd he hne
          · next hne0 =>
            split at hcore
            · simp at hcore
            · next tid hidx =>
              obtain rfl := by simpa using hcore
              refine ⟨rfl, rfl, ?_⟩
              intro τ hτ hne
              rw [hlk] at hτ
              obtain rfl := by simpa using hτ
              exact ⟨tid, hidx, rfl⟩
        · next hlkn =>
          obtain rfl := by simpa using hcore
          refine ⟨rfl, rfl, ?_⟩
          intro τ hτ hne
          rw [hlkn] at hτ
          simp at hτ
      split at h
      · simp at h
      · next att' hatt =>
        split at h
        · simp at h
        · next call' hcall =>
          obtain rfl := by simpa using h
          cases s with
          | mk c ch =>
            cases att with
            | none =>
              rw [resolveLinksO] at hatt
              obtain rfl := by simpa using hatt
              simp only [pairsT, Topic.attached]
              exact List.Forall₂.cons ⟨rfl, hkeep.1, hkeep.2.1, hkeep.2.2⟩ List.Forall₂.nil
            | some ts =>
              rw [resolveLinksO] at hatt
              split at hatt
              · simp at hatt
              · next ts' hts =>
                obtain rfl := by simpa using hatt
                simp only [pairsT, Topic.attached]
                exact List.Forall₂.cons ⟨rfl, hkeep.1, hkeep.2.1, hkeep.2.2⟩
                  (resolveLinksL_pairs pl idx ts ts' hts ch)
  termination_by t => sizeOf t

theorem resolveLinksL_pairs (pl : List (Nat × String))
    (idx : List (Option String × Nat)) :
    ∀ (ts ts' : List Topic), resolveLinksList pl idx ts = .ok ts' →
      ∀ ss : List TopicSpec, List.Forall₂ (linkKeep pl idx) (pairsL ss ts) (pairsL ss ts')
  | [], ts', h, ss => by
    obtain rfl := by simpa [resolveLinksList] using h
    rw [pairsL_nil]
    exact List.Forall₂.nil
  | t :: ts, ts', h, ss => by
    rw [resolveLinksList] at h
    split at h
    · simp at h
    · next t2 ht2 =>
      split at h
      · simp at h
      · next rest2 hrest =>
        obtain rfl := by simpa using h
        cases ss with
        | nil => simp only [pairsL]; exact List.Forall₂.nil
        | cons s ss2 =>
          simp only [pairsL]
          exact forall2_append (resolveLinks_pairs pl idx t t2 ht2 s)
            (resolveLinksL_pairs pl idx ts rest2 hrest ss2)
  termination_by ts => sizeOf ts

end


/-! ### The state invariant of the per-sheet loop -/

/-- The invariant `build` maintains on the builder state between sheets:
every recorded identifier is below the counter, and the two pending tables
have distinct keys. -/
def StWF (st : BState) : Prop :=
  (∀ p ∈ st.titleToId, p.2 < st.ctr) ∧
  (∀ p ∈ st.pendingLinks, p.1 < st.ctr) ∧ (st.pendingLinks.map Prod.fst).Nodup ∧
  (∀ p ∈ st.pendingDeps, p.1 < st.ctr) ∧ (st.pendingDeps.map Prod.fst).Nodup

theorem stwf_init : StWF initState := by
  refine ⟨?_, ?_, ?_, ?_, ?_⟩ <;> simp [initState]

/-- Building one tree preserves the invariant. -/
theorem stwf_btprops {dm : String → Int} {s : TopicSpec} {st : BState} {t : Topic}
    {st' : BState} (P : BTProps dm s st t st') (W : StWF st) : StWF st' := by
  obtain ⟨hc, hid, hmap, ⟨Δt, ht, htb, _, _, _⟩, ⟨Δl, hl, hlb, hln, _⟩,
    ⟨Δd, hd, hdb, hdn, _⟩, _⟩ := P
  obtain ⟨Wt, Wl, Wln, Wd, Wdn⟩ := W
  refine ⟨?_, ?_, ?_, ?_, ?_⟩
  · intro p hp
    rw [ht] at hp
    rcases List.mem_append.1 hp with hh | hh
    · exact (htb p hh).2
    · have := Wt p hh
      omega
  · intro p hp
    rw [hl] at hp
    rcases List.mem_append.1 hp with hh | hh
    · exact (hlb p hh).2
    · have := Wl p hh
      omega
  · rw [hl, List.map_append]
    refine List.Nodup.append hln Wln (List.disjoint_left.2 ?_)
    intro a ha hb
    obtain ⟨p, hp, rfl⟩ := List.mem_map.1 ha
    obtain ⟨q, hq, hpq⟩ := List.mem_map.1 hb
    have h1 := (hlb p hp).1
    have h2 := Wl q hq
    omega
  · intro p hp
    rw [hd] at hp
    rcases List.mem_append.1 hp with hh | hh
    · exact (hdb p hh).2
    · have := Wd p hh
      omega
  · rw [hd, List.map_append]
    refine List.Nodup.append hdn Wdn (List.disjoint_left.2 ?_)
    intro a ha hb
    obtain ⟨p, hp, rfl⟩ := List.mem_map.1 ha
    obtain ⟨q, hq, hpq⟩ := List.mem_map.1 hb
    have h1 := (hdb p hp).1
    have h2 := Wd q hq
    omega

theorem allTitles_cons (sh : SheetSpec) (rest : List SheetSpec) :
    allTitles (sh :: rest) = specTitlesT sh.rootTopic ++ allTitles rest := by
  simp [allTitles]

theorem forall2_fst_eq {R : TopicSpec × Topic → TopicSpec × Topic → Prop}
    (hR : ∀ a b, R a b → b.1 = a.1) :
    ∀ {A B : List (TopicSpec × Topic)}, List.Forall₂ R A B →
      B.map Prod.fst = A.map Prod.fst := by
  intro A B h
  induction h with
  | nil => rfl
  | cons hr _ ih => simp [ih, hR _ _ hr]

/-- What a successful pass 1 guarantees: the invariant persists, the title
index grows by exactly the input titles, and every sheet record carries a
fully paired tree whose titles and pending links are registered in the
final tables. -/
theorem phase1_spec (dm : String → Int) : ∀ (l : List SheetSpec) (st : BState) prs st',
    phase1 dm l st = .ok (prs, st') → StWF st →
    StWF st' ∧ st.ctr ≤ st'.ctr ∧
    (∃ Δt, st'.titleToId = Δt ++ st.titleToId ∧
      (∀ p ∈ Δt, st.ctr ≤ p.2 ∧ p.2 < st'.ctr) ∧
      List.Perm (Δt.map Prod.fst) (allTitles l)) ∧
    (∃ Δl, st'.pendingLinks = Δl ++ st.pendingLinks) ∧
    List.Forall₂ (fun (sh : SheetSpec) (pr : Topic × SheetSpec) =>
      pr.2 = sh ∧
      (pairsT sh.rootTopic pr.1).map Prod.fst = specNodes sh.rootTopic ∧
      ∀ q ∈ pairsT sh.rootTopic pr.1,
        q.2.core.title = q.1.core.title ∧
        (q.1.core.title, q.2.core.id) ∈ st'.titleToId ∧
        ∀ τ, q.1.core.linkToTopic = some τ → τ ≠ "" →
          (q.2.core.id, τ) ∈ st'.pendingLinks) l prs := by
  intro l
  induction l with
  | nil =>
    intro st prs st' h W
    obtain ⟨rfl, rfl⟩ := by simpa [phase1] using h
    exact ⟨W, le_refl _, ⟨[], by simp, by simp, by simp [allTitles]⟩, ⟨[], by simp⟩,
      List.Forall₂.nil⟩
  | cons sh rest ih =>
    intro st prs st' h W
    simp only [phase1] at h
    rcases hbt : buildTopic dm sh.rootTopic st with ⟨root, st1⟩
    rw [hbt] at h
    simp only at h
    split at h
    · simp at h
    · next root2 hres =>
      split at h
      · simp at h
      · next prs2 st2 hrec =>
        obtain ⟨rfl, rfl⟩ := by simpa using h
        have P := buildTopic_spec dm sh.rootTopic st root st1 hbt
        have W1 := stwf_btprops P W
        obtain ⟨W2, hctr2, ⟨Δt2, ht2, htb2, htp2⟩, ⟨Δl2, hl2⟩, hfa⟩ :=
          ih st1 prs2 st2 hrec W1
        obtain ⟨hc1, hid1, hmap1, ⟨Δt1, ht1, htb1, htp1, htf1, htm1⟩,
          ⟨Δl1, hl1, hlb1, hln1, hlm1⟩, ⟨Δd1, hd1, hdb1, hdn1, hdm1⟩, hq1⟩ := P
        refine ⟨W2, by omega, ?_, ?_, ?_⟩
        · refine ⟨Δt2 ++ Δt1, by rw [ht2, ht1, List.append_assoc], ?_, ?_⟩
          · intro p hp
            rcases List.mem_append.1 hp with hh | hh
            · have := htb2 p hh
              constructor <;> omega
            · have := htb1 p hh
              constructor <;> omega
          · rw [List.map_append, allTitles_cons]
            exact (List.perm_append_comm).trans (htp1.append htp2)
        · exact ⟨Δl2 ++ Δl1, by rw [hl2, hl1, List.append_assoc]⟩
        · have hDK := resolveDeps_pairs st1.pendingDeps st1.titleToId root root2 hres
            sh.rootTopic
          refine List.Forall₂.cons ⟨rfl, ?_, ?_⟩ hfa
          · rw [forall2_fst_eq (fun a b hab => hab.1) hDK, hmap1]
          · intro q2 hq2
            obtain ⟨q, hq, hk⟩ := forall₂_mem_right hDK hq2
            obtain ⟨hk1, hkid, hkt, hkh⟩ := hk
            have hql := hq1 q hq
            refine ⟨?_, ?_, ?_⟩
            · rw [hkt, hk1, hql.2.1]
            · rw [hk1, hkid]
              have hm : (q.1.core.title, q.2.core.id) ∈ st1.titleToId := by
                rw [ht1]
                exact List.mem_append.2 (Or.inl (htf1 q hq))
              rw [ht2]
              exact List.mem_append.2 (Or.inr hm)
            · intro τ hτ hne
              rw [hk1] at hτ
              have hm : (q.2.core.id, τ) ∈ st1.pendingLinks := by
                rw [hl1]
                exact List.mem_append.2 (Or.inl (hlm1 q hq τ hτ hne))
              rw [hkid, hl2]
              exact List.mem_append.2 (Or.inr hm)


/-- Pass 1 can only fail with a dependency-target-not-found error. -/
theorem phase1_error_shape (dm : String → Int) :
    ∀ (l : List SheetSpec) (st : BState) (e : BErr),
      phase1 dm l st = .error e → ∃ τ, e = .depNotFound τ := by
  intro l
  induction l with
  | nil => intro st e h; simp [phase1] at h
  | cons sh rest ih =>
    intro st e h
    simp only [phase1] at h
    split at h
    · next e2 he2 =>
      obtain rfl := by simpa using h
      exact resolveDeps_error_shape _ _ _ _ he2
    · split at h
      · next e2 hrec =>
        obtain rfl := by simpa using h
        exact ih _ _ hrec
      · simp at h

/-- If pass 1 succeeds, every dependency target named in sheet `i` was
already present in the title index as of sheet `i` — that is, it names a
title of sheets `0..i` (or one the initial state already held). -/
theorem phase1_dep_prefix (dm : String → Int) : ∀ (l : List SheetSpec) (st : BState) prs st',
    phase1 dm l st = .ok (prs, st') → StWF st →
    ∀ i, i < l.length →
      ∀ n ∈ specNodes (l.getD i default).rootTopic, ∀ ds, n.core.dependencies = some ds →
        0 < ds.length → ∀ d ∈ ds,
          some d.targetTitle ∈ allTitles (l.take (i + 1)) ++ st.titleToId.map Prod.fst := by
  intro l
  induction l with
  | nil => intro st prs st' h W i hi; simp at hi
  | cons sh rest ih =>
    intro st prs st' h W i hi n hn ds hds hlen d hd
    simp only [phase1] at h
    rcases hbt : buildTopic dm sh.rootTopic st with ⟨root, st1⟩
    rw [hbt] at h
    simp only at h
    split at h
    · simp at h
    · next root2 hres =>
      split at h
      · simp at h
      · next prs2 st2 hrec =>
        have P := buildTopic_spec dm sh.rootTopic st root st1 hbt
        have W1 := stwf_btprops P W
        cases i with
        | zero =>
          obtain ⟨hc1, hid1, hmap1, ⟨Δt1, ht1, htb1, htp1, htf1, htm1⟩,
            ⟨Δl1, hl1, hlb1, hln1, hlm1⟩, ⟨Δd1, hd1, hdb1, hdn1, hdm1⟩, hq1⟩ := P
          have hn1 : n ∈ (pairsT sh.rootTopic root).map Prod.fst := by
            rw [hmap1]
            simpa using hn
          obtain ⟨q, hq, rfl⟩ := List.mem_map.1 hn1
          have hgd : q.1.core.dependencies.getD [] = ds := by rw [hds]; rfl
          have hmem : (q.2.core.id, ds) ∈ Δd1 := by
            have := hdm1 q hq (by rw [hgd]; exact hlen)
            rwa [hgd] at this
          have hmem2 : (q.2.core.id, ds) ∈ st1.pendingDeps := by
            rw [hd1]
            exact List.mem_append.2 (Or.inl hmem)
          have hlk : List.lookup q.2.core.id st1.pendingDeps = some ds :=
            lookup_eq_of_mem_nodup hmem2 W1.2.2.2.2
          have htask : hasTaskProps q.1.core = true := by
            simp [hasTaskProps, hds]
          have hext2 : q.2.core.extensions =
              some [⟨taskProvider, mkTaskContent dm q.1.core⟩] := by
            rw [(hq1 q hq).2.2, if_pos htask]
          have hfind : ((([⟨taskProvider, mkTaskContent dm q.1.core⟩] : List TaskExt)).find?
              (fun e => e.provider == taskProvider)).isSome = true := by
            simp
          have htq := pairsT_mem_topicsOf sh.rootTopic root q hq
          have hres2 := resolveDeps_ok_forces st1.pendingDeps st1.titleToId root root2 hres
            q.2 htq ds hlk _ hext2 hfind d hd
          obtain ⟨tid, hlt⟩ := Option.isSome_iff_exists.1 hres2
          have hkm : (some d.targetTitle, tid) ∈ st1.titleToId := lookup_mem hlt
          rw [ht1] at hkm
          rcases List.mem_append.1 hkm with hh | hh
          · have hk1 : some d.targetTitle ∈ Δt1.map Prod.fst :=
              List.mem_map.2 ⟨_, hh, rfl⟩
            have hk2 : some d.targetTitle ∈ specTitlesT sh.rootTopic := htp1.mem_iff.1 hk1
            refine List.mem_append.2 (Or.inl ?_)
            simpa [allTitles] using hk2
          · exact List.mem_append.2 (Or.inr (List.mem_map.2 ⟨_, hh, rfl⟩))
        | succ j =>
          have hj : j < rest.length := by simpa using hi
          have hn2 : n ∈ specNodes (rest.getD j default).rootTopic := by simpa using hn
          have hrest := ih st1 prs2 st2 hrec W1 j hj n hn2 ds hds hlen d hd
          obtain ⟨hc1, hid1, hmap1, ⟨Δt1, ht1, htb1, htp1, htf1, htm1⟩, hP1, hP2, hP3⟩ := P
          have hcons : (sh :: rest).take (j + 1 + 1) = sh :: rest.take (j + 1) := rfl
          rcases List.mem_append.1 hrest with hh | hh
          · refine List.mem_append.2 (Or.inl ?_)
            rw [hcons, allTitles_cons]
            exact List.mem_append.2 (Or.inr hh)
          · rw [ht1, List.map_append] at hh
            rcases List.mem_append.1 hh with hh2 | hh2
            · refine List.mem_append.2 (Or.inl ?_)
              rw [hcons, allTitles_cons]
              exact List.mem_append.2 (Or.inl (htp1.mem_iff.1 hh2))
            · exact List.mem_append.2 (Or.inr hh2)


/-- Relationship resolution (source lines 165–176): success pairs each input
relationship with an output whose endpoints are the two looked-up titles. -/
theorem resolveRels_spec (idx : List (Option String × Nat)) :
    ∀ (rels : List RelSpec) (n : Nat) outs n', resolveRels idx rels n = .ok (outs, n') →
      List.Forall₂ (fun (r : RelSpec) (o : RelOut) =>
        List.lookup (some r.sourceTitle) idx = some o.end1Id ∧
        List.lookup (some r.targetTitle) idx = some o.end2Id) rels outs := by
  intro rels
  induction rels with
  | nil =>
    intro n outs n' h
    obtain ⟨rfl, rfl⟩ := by simpa [resolveRels] using h
    exact List.Forall₂.nil
  | cons r rs ih =>
    intro n outs n' h
    rw [resolveRels] at h
    split at h
    · simp at h
    · next e1 h1 =>
      split at h
      · simp at h
      · next e2 h2 =>
        split at h
        · simp at h
        · next outs2 n2 hrec =>
          obtain ⟨rfl, rfl⟩ := by simpa using h
          exact List.Forall₂.cons ⟨h1, h2⟩ (ih _ _ _ hrec)

/-- Pass 3 pointwise on relationships: a sheet that declares relationships
gets a document whose relationship list is a successful resolution of them
against the final title index. -/
theorem phase3_rels (idx : List (Option String × Nat)) :
    ∀ (l : List (Topic × SheetSpec)) (n : Nat) objs n', phase3 idx l n = .ok (objs, n') →
      ∀ i, i < l.length → 0 < ((l.getD i default).2.relationships.getD []).length →
        ∃ outs, (objs.getD i default).relationships = some outs ∧
          ∃ m m', resolveRels idx ((l.getD i default).2.relationships.getD []) m =
            .ok (outs, m') := by
  intro l
  induction l with
  | nil => intro n objs n' h i hi; simp at hi
  | cons p rest ih =>
    intro n objs n' h i hi hlen
    obtain ⟨root, sh⟩ := p
    simp only [phase3] at h
    split at h
    · next hcond =>
      split at h
      · simp at h
      · next outs m hrels =>
        split at h
        · simp at h
        · next objs2 n2 hrec =>
          obtain ⟨rfl, rfl⟩ := by simpa using h
          cases i with
          | zero => exact ⟨outs, by simp, n + 1, m, hrels⟩
          | succ j =>
            exact ih _ _ _ hrec j (by simpa using hi) (by simpa using hlen)
    · next hcond =>
      split at h
      · simp at h
      · next objs2 n2 hrec =>
        obtain ⟨rfl, rfl⟩ := by simpa using h
        cases i with
        | zero => exact absurd (by simpa using hlen) hcond
        | succ j =>
          exact ih _ _ _ hrec j (by simpa using hi) (by simpa using hlen)


theorem allTitles_append (a b : List SheetSpec) :
    allTitles (a ++ b) = allTitles a ++ allTitles b := by
  simp [allTitles]

/-- A dependency whose target is not among the titles of sheets `0..i` (its
own sheet included) makes the whole build fail with a dependency error:
`resolveDependencies` runs before any later sheet is indexed. -/
theorem dep_forward_fails (dm : String → Int) (sheets : List SheetSpec)
    (i : Nat) (hi : i < sheets.length) (n : TopicSpec)
    (hn : n ∈ specNodes (sheets.getD i default).rootTopic)
    (ds : List DepSpec) (hds : n.core.dependencies = some ds) (hlen : 0 < ds.length)
    (d : DepSpec) (hd : d ∈ ds)
    (hmiss : some d.targetTitle ∉ allTitles (sheets.take (i + 1))) :
    ∃ τ, build dm sheets = .error (.depNotFound τ) := by
  cases hE : phase1 dm sheets initState with
  | error e =>
    obtain ⟨τ, rfl⟩ := phase1_error_shape dm sheets initState e hE
    refine ⟨τ, ?_⟩
    unfold build
    rw [hE]
  | ok pr =>
    obtain ⟨prs, st⟩ := pr
    have hmem := phase1_dep_prefix dm sheets initState prs st hE stwf_init i hi n hn
      ds hds hlen d hd
    rw [show initState.titleToId = [] from rfl] at hmem
    simp only [List.map_nil, List.append_nil] at hmem
    exact absurd hmem hmiss


/-- Cross-sheet resolution of `linkToTopic`: in a successful build with
globally distinct titles, a topic that links to title `τ` ends up, in the
emitted content, holding exactly `xmind:#` of the identifier generated for
the unique topic titled `τ`, whichever sheet (earlier or later) holds it. -/
theorem links_cross_sheet (dm : String → Int) (sheets : List SheetSpec)
    (res : BuildResult) (hok : build dm sheets = .ok res)
    (hnd : (allTitles sheets).Nodup)
    (iA : Nat) (hiA : iA < sheets.length)
    (nA : TopicSpec) (hnA : nA ∈ specNodes (sheets.getD iA default).rootTopic)
    (τ : String) (hlink : nA.core.linkToTopic = some τ) (hne : τ ≠ "")
    (iB : Nat) (hiB : iB < sheets.length)
    (nB : TopicSpec) (hnB : nB ∈ specNodes (sheets.getD iB default).rootTopic)
    (htitle : nB.core.title = some τ) :
    ∃ qA ∈ pairsT (sheets.getD iA default).rootTopic
        ((res.content.getD iA default).rootTopic),
      qA.1 = nA ∧
      ∃ qB ∈ pairsT (sheets.getD iB default).rootTopic
          ((res.content.getD iB default).rootTopic),
        qB.1 = nB ∧ qA.2.core.href = some (xmindHref qB.2.core.id) := by
  obtain ⟨prs, st, prs2, nfin, hp1, hp2, hp3, hman, hmeta⟩ := build_ok_decomp dm sheets res hok
  obtain ⟨W, hctr, ⟨Δt, ht, htb, htp⟩, ⟨Δl, hl⟩, FA⟩ :=
    phase1_spec dm sheets initState prs st hp1 stwf_init
  have hkeys : List.Perm (st.titleToId.map Prod.fst) (allTitles sheets) := by
    rw [ht, show initState.titleToId = [] from rfl, List.append_nil]
    exact htp
  have hkeysnd : (st.titleToId.map Prod.fst).Nodup := hkeys.nodup_iff.2 hnd
  have hlenFA := List.Forall₂.length_eq FA
  obtain ⟨hlen2, hpt2⟩ := phase2_get st.pendingLinks st.titleToId prs prs2 hp2
  obtain ⟨hlen3, hpt3⟩ := phase3_get st.titleToId prs2 st.ctr res.content nfin hp3
  obtain ⟨hshA, hmapA, hqA⟩ := forall2_getD FA default default iA hiA
  have hnA1 : nA ∈ (pairsT (sheets.getD iA default).rootTopic
      (prs.getD iA default).1).map Prod.fst := by
    rw [hmapA]
    exact hnA
  obtain ⟨qA1, hqA1, hqA1n⟩ := List.mem_map.1 hnA1
  have hlinkm : (qA1.2.core.id, τ) ∈ st.pendingLinks :=
    (hqA qA1 hqA1).2.2 τ (by rw [hqA1n]; exact hlink) hne
  have hlkpl : List.lookup qA1.2.core.id st.pendingLinks = some τ :=
    lookup_eq_of_mem_nodup hlinkm W.2.2.1
  have hRL := (hpt2 iA (by omega)).1
  have hFK := resolveLinks_pairs st.pendingLinks st.titleToId _ _ hRL
    (sheets.getD iA default).rootTopic
  obtain ⟨qA2, hqA2, hkA⟩ := forall₂_mem_left hFK hqA1
  obtain ⟨hkA1, hkAid, hkAt, hkAh⟩ := hkA
  obtain ⟨tid, hlkidx, hhref⟩ := hkAh τ hlkpl hne
  obtain ⟨hshB, hmapB, hqB⟩ := forall2_getD FA default default iB hiB
  have hnB1 : nB ∈ (pairsT (sheets.getD iB default).rootTopic
      (prs.getD iB default).1).map Prod.fst := by
    rw [hmapB]
    exact hnB
  obtain ⟨qB1, hqB1, hqB1n⟩ := List.mem_map.1 hnB1
  have htm : (some τ, qB1.2.core.id) ∈ st.titleToId := by
    have hx := (hqB qB1 hqB1).2.1
    rw [hqB1n, htitle] at hx
    exact hx
  have hlkB : List.lookup (some τ) st.titleToId = some qB1.2.core.id :=
    lookup_eq_of_mem_nodup htm hkeysnd
  have htid : tid = qB1.2.core.id := by
    rw [hlkidx] at hlkB
    simpa using hlkB
  have hRLB := (hpt2 iB (by omega)).1
  have hFKB := resolveLinks_pairs st.pendingLinks st.titleToId _ _ hRLB
    (sheets.getD iB default).rootTopic
  obtain ⟨qB2, hqB2, hkB⟩ := forall₂_mem_left hFKB hqB1
  obtain ⟨hkB1, hkBid, hkBt, hkBh⟩ := hkB
  have hrootA : (res.content.getD iA default).rootTopic = (prs2.getD iA default).1 :=
    (hpt3 iA (by omega)).2.2.1
  have hrootB : (res.content.getD iB default).rootTopic = (prs2.getD iB default).1 :=
    (hpt3 iB (by omega)).2.2.1
  refine ⟨qA2, ?_, ?_, qB2, ?_, ?_, ?_⟩
  · rw [hrootA]
    exact hqA2
  · rw [hkA1, hqA1n]
  · rw [hrootB]
    exact hqB2
  · rw [hkB1, hqB1n]
  · rw [hhref, htid, hkBid]


/-- Cross-sheet resolution of sheet relationships: in a successful build
with globally distinct titles, a declared relationship is emitted with its
two endpoints set to the identifiers generated for the topics carrying the
two named titles, whichever sheets hold them. -/
theorem rels_cross_sheet (dm : String → Int) (sheets : List SheetSpec)
    (res : BuildResult) (hok : build dm sheets = .ok res)
    (hnd : (allTitles sheets).Nodup)
    (i : Nat) (hi : i < sheets.length)
    (r : RelSpec) (hr : r ∈ (sheets.getD i default).relationships.getD [])
    (jS : Nat) (hjS : jS < sheets.length)
    (nS : TopicSpec) (hnS : nS ∈ specNodes (sheets.getD jS default).rootTopic)
    (hSt : nS.core.title = some r.sourceTitle)
    (jT : Nat) (hjT : jT < sheets.length)
    (nT : TopicSpec) (hnT : nT ∈ specNodes (sheets.getD jT default).rootTopic)
    (hTt : nT.core.title = some r.targetTitle) :
    ∃ outs, (res.content.getD i default).relationships = some outs ∧
      ∃ o ∈ outs,
        (∃ qS ∈ pairsT (sheets.getD jS default).rootTopic
            ((res.content.getD jS default).rootTopic),
          qS.1 = nS ∧ o.end1Id = qS.2.core.id) ∧
        (∃ qT ∈ pairsT (sheets.getD jT default).rootTopic
            ((res.content.getD jT default).rootTopic),
          qT.1 = nT ∧ o.end2Id = qT.2.core.id) := by
  obtain ⟨prs, st, prs2, nfin, hp1, hp2, hp3, hman, hmeta⟩ := build_ok_decomp dm sheets res hok
  obtain ⟨W, hctr, ⟨Δt, ht, htb, htp⟩, ⟨Δl, hl⟩, FA⟩ :=
    phase1_spec dm sheets initState prs st hp1 stwf_init
  have hkeys : List.Perm (st.titleToId.map Prod.fst) (allTitles sheets) := by
    rw [ht, show initState.titleToId = [] from rfl, List.append_nil]
    exact htp
  have hkeysnd : (st.titleToId.map Prod.fst).Nodup := hkeys.nodup_iff.2 hnd
  have hlenFA := List.Forall₂.length_eq FA
  obtain ⟨hlen2, hpt2⟩ := phase2_get st.pendingLinks st.titleToId prs prs2 hp2
  obtain ⟨hlen3, hpt3⟩ := phase3_get st.titleToId prs2 st.ctr res.content nfin hp3
  have hsheq : (prs2.getD i default).2 = sheets.getD i default := by
    rw [(hpt2 i (by omega)).2, (forall2_getD FA default default i hi).1]
  have hr2 : r ∈ (prs2.getD i default).2.relationships.getD [] := by
    rw [hsheq]
    exact hr
  have hrlen : 0 < ((prs2.getD i default).2.relationships.getD []).length :=
    List.length_pos.2 (List.ne_nil_of_mem hr2)
  obtain ⟨outs, houts, m, m2, hrr⟩ :=
    phase3_rels st.titleToId prs2 st.ctr res.content nfin hp3 i (by omega) hrlen
  have hspec := resolveRels_spec st.titleToId _ m outs m2 hrr
  obtain ⟨o, ho, hlk1, hlk2⟩ := forall₂_mem_left hspec hr2
  obtain ⟨hshS, hmapS, hqS⟩ := forall2_getD FA default default jS hjS
  have hnS1 : nS ∈ (pairsT (sheets.getD jS default).rootTopic
      (prs.getD jS default).1).map Prod.fst := by
    rw [hmapS]
    exact hnS
  obtain ⟨qS1, hqS1, hqS1n⟩ := List.mem_map.1 hnS1
  have htmS : (some r.sourceTitle, qS1.2.core.id) ∈ st.titleToId := by
    have hx := (hqS qS1 hqS1).2.1
    rw [hqS1n, hSt] at hx
    exact hx
  have hlkS : List.lookup (some r.sourceTitle) st.titleToId = some qS1.2.core.id :=
    lookup_eq_of_mem_nodup htmS hkeysnd
  have hidS : o.end1Id = qS1.2.core.id := by
    rw [hlk1] at hlkS
    simpa using hlkS
  obtain ⟨hshT, hmapT, hqT⟩ := forall2_getD FA default default jT hjT
  have hnT1 : nT ∈ (pairsT (sheets.getD jT default).rootTopic
      (prs.getD jT default).1).map Prod.fst := by
    rw [hmapT]
    exact hnT
  obtain ⟨qT1, hqT1, hqT1n⟩ := List.mem_map.1 hnT1
  have htmT : (some r.targetTitle, qT1.2.core.id) ∈ st.titleToId := by
    have hx := (hqT qT1 hqT1).2.1
    rw [hqT1n, hTt] at hx
    exact hx
  have hlkT : List.lookup (some r.targetTitle) st.titleToId = some qT1.2.core.id :=
    lookup_eq_of_mem_nodup htmT hkeysnd
  have hidT : o.end2Id = qT1.2.core.id := by
    rw [hlk2] at hlkT
    simpa using hlkT
  have hRS := (hpt2 jS (by omega)).1
  have hFKS := resolveLinks_pairs st.pendingLinks st.titleToId _ _ hRS
    (sheets.getD jS default).rootTopic
  obtain ⟨qS2, hqS2, hkS⟩ := forall₂_mem_left hFKS hqS1
  obtain ⟨hkS1, hkSid, hkSt, hkSh⟩ := hkS
  have hRT := (hpt2 jT (by omega)).1
  have hFKT := resolveLinks_pairs st.pendingLinks st.titleToId _ _ hRT
    (sheets.getD jT default).rootTopic
  obtain ⟨qT2, hqT2, hkT⟩ := forall₂_mem_left hFKT hqT1
  obtain ⟨hkT1, hkTid, hkTt, hkTh⟩ := hkT
  have hrootS : (res.content.getD jS default).rootTopic = (prs2.getD jS default).1 :=
    (hpt3 jS (by omega)).2.2.1
  have hrootT : (res.content.getD jT default).rootTopic = (prs2.getD jT default).1 :=
    (hpt3 jT (by omega)).2.2.1
  refine ⟨outs, houts, o, ho, ⟨qS2, ?_, ?_, ?_⟩, ⟨qT2, ?_, ?_, ?_⟩⟩
  · rw [hrootS]
    exact hqS2
  · rw [hkS1, hqS1n]
  · rw [hidS, hkSid]
  · rw [hrootT]
    exact hqT2
  · rw [hkT1, hqT1n]
  · rw [hidT, hkTid]


/-- A leaf input topic with a title and an internal link. -/
def linkNode (t τ : String) : TopicSpec :=
  .mk { blankCore with title := some t, linkToTopic := some τ } []

/-- A forward internal link used by the C1 witness: sheet T1's topic "P"
links to "Q", defined only in sheet T2. -/
def exForwardLinkB : List SheetSpec :=
  [sheet0 "T1" (linkNode "P" "Q"), sheet0 "T2" (leafT "Q")]

def resForwardLinkB : BuildResult := getOk (build dm0 exForwardLinkB)

def resForwardRel : BuildResult := getOk (build dm0 exForwardRel)

def resForwardLink : BuildResult := getOk (build dm0 exForwardLink)

/-- C3 (amended): a dependency list naming a target title bound to no topic
in any sheet makes the build fail with a dependency-target-not-found error,
and no output container is produced; the reported title is the first target
unresolved at its per-sheet resolution point (`c3_counterexample` shows it
can differ from the dangling title). -/
theorem c3_dangling_dep_fails (dm : String → Int) (sheets : List SheetSpec)
    (i : Nat) (hi : i < sheets.length) (n : TopicSpec)
    (hn : n ∈ specNodes (sheets.getD i default).rootTopic)
    (ds : List DepSpec) (hds : n.core.dependencies = some ds) (hlen : 0 < ds.length)
    (d : DepSpec) (hd : d ∈ ds)
    (hdangle : some d.targetTitle ∉ allTitles sheets) :
    (∃ τ, build dm sheets = .error (.depNotFound τ)) ∧
      mainEntries dm sheets = none := by
  have hmiss : some d.targetTitle ∉ allTitles (sheets.take (i + 1)) := by
    intro hmem
    apply hdangle
    have hsplit : allTitles (sheets.take (i + 1)) ++ allTitles (sheets.drop (i + 1)) =
        allTitles sheets := by
      rw [← allTitles_append, List.take_append_drop]
    rw [← hsplit]
    exact List.mem_append.2 (Or.inl hmem)
  obtain ⟨τ, hb⟩ := dep_forward_fails dm sheets i hi n hn ds hds hlen d hd hmiss
  refine ⟨⟨τ, hb⟩, ?_⟩
  unfold mainEntries
  rw [hb]

theorem c3_dangling_dep_fails_witness :
    (some "Z" ∉ allTitles exDangling) ∧
      ((∃ τ, build dm0 exDangling = .error (.depNotFound τ)) ∧
        mainEntries dm0 exDangling = none) := by
  refine ⟨by decide, ?_⟩
  exact c3_dangling_dep_fails dm0 exDangling 1 (by decide)
    (depTopic "B" "Z") (List.mem_singleton.2 rfl)
    [⟨"Z", "FS", none⟩] rfl (by decide) ⟨"Z", "FS", none⟩ (List.mem_singleton.2 rfl)
    (by decide)

/-- C1 (amended): internal links and sheet relationships are resolved only
after every sheet's tree has been built, so either kind of reference naming
a unique topic title in any sheet — a later one included — resolves to that
topic's generated identifier; task dependencies are instead resolved
immediately after their own sheet, so a dependency target absent from
sheets `0..i` fails the whole build with a dependency error. -/
theorem c1_two_pass_amended :
    (∀ (dm : String → Int) (sheets : List SheetSpec) (res : BuildResult),
      build dm sheets = .ok res → (allTitles sheets).Nodup →
      ∀ iA, iA < sheets.length →
      ∀ nA ∈ specNodes (sheets.getD iA default).rootTopic,
      ∀ τ, nA.core.linkToTopic = some τ → τ ≠ "" →
      ∀ iB, iB < sheets.length →
      ∀ nB ∈ specNodes (sheets.getD iB default).rootTopic, nB.core.title = some τ →
        ∃ qA ∈ pairsT (sheets.getD iA default).rootTopic
            ((res.content.getD iA default).rootTopic),
          qA.1 = nA ∧
          ∃ qB ∈ pairsT (sheets.getD iB default).rootTopic
              ((res.content.getD iB default).rootTopic),
            qB.1 = nB ∧ qA.2.core.href = some (xmindHref qB.2.core.id)) ∧
    (∀ (dm : String → Int) (sheets : List SheetSpec) (res : BuildResult),
      build dm sheets = .ok res → (allTitles sheets).Nodup →
      ∀ i, i < sheets.length →
      ∀ r ∈ (sheets.getD i default).relationships.getD [],
      ∀ jS, jS < sheets.length →
      ∀ nS ∈ specNodes (sheets.getD jS default).rootTopic,
        nS.core.title = some r.sourceTitle →
      ∀ jT, jT < sheets.length →
      ∀ nT ∈ specNodes (sheets.getD jT default).rootTopic,
        nT.core.title = some r.targetTitle →
        ∃ outs, (res.content.getD i default).relationships = some outs ∧
          ∃ o ∈ outs,
            (∃ qS ∈ pairsT (sheets.getD jS default).rootTopic
                ((res.content.getD jS default).rootTopic),
              qS.1 = nS ∧ o.end1Id = qS.2.core.id) ∧
            (∃ qT ∈ pairsT (sheets.getD jT default).rootTopic
                ((res.content.getD jT default).rootTopic),
              qT.1 = nT ∧ o.end2Id = qT.2.core.id)) ∧
    (∀ (dm : String → Int) (sheets : List SheetSpec) (i : Nat), i < sheets.length →
      ∀ n ∈ specNodes (sheets.getD i default).rootTopic,
      ∀ ds, n.core.dependencies = some ds → 0 < ds.length →
      ∀ d ∈ ds, some d.targetTitle ∉ allTitles (sheets.take (i + 1)) →
        ∃ τ, build dm sheets = .error (.depNotFound τ)) := by
  refine ⟨?_, ?_, ?_⟩
  · intro dm sheets res hok hnd iA hiA nA hnA τ hlink hne iB hiB nB hnB htitle
    exact links_cross_sheet dm sheets res hok hnd iA hiA nA hnA τ hlink hne
      iB hiB nB hnB htitle
  · intro dm sheets res hok hnd i hi r hr jS hjS nS hnS hSt jT hjT nT hnT hTt
    exact rels_cross_sheet dm sheets res hok hnd i hi r hr jS hjS nS hnS hSt
      jT hjT nT hnT hTt
  · intro dm sheets i hi n hn ds hds hlen d hd hmiss
    exact dep_forward_fails dm sheets i hi n hn ds hds hlen d hd hmiss

theorem c1_two_pass_amended_witness :
    ((allTitles exForwardLinkB).Nodup ∧
      ∃ qA ∈ pairsT (exForwardLinkB.getD 0 default).rootTopic
          ((resForwardLinkB.content.getD 0 default).rootTopic),
        qA.1 = linkNode "P" "Q" ∧
        ∃ qB ∈ pairsT (exForwardLinkB.getD 1 default).rootTopic
            ((resForwardLinkB.content.getD 1 default).rootTopic),
          qB.1 = leafT "Q" ∧ qA.2.core.href = some (xmindHref qB.2.core.id)) ∧
    ((allTitles exForwardRel).Nodup ∧
      ∃ outs, (resForwardRel.content.getD 0 default).relationships = some outs ∧
        ∃ o ∈ outs,
          (∃ qS ∈ pairsT (exForwardRel.getD 0 default).rootTopic
              ((resForwardRel.content.getD 0 default).rootTopic),
            qS.1 = leafT "A" ∧ o.end1Id = qS.2.core.id) ∧
          (∃ qT ∈ pairsT (exForwardRel.getD 1 default).rootTopic
              ((resForwardRel.content.getD 1 default).rootTopic),
            qT.1 = leafT "B" ∧ o.end2Id = qT.2.core.id)) ∧
    (some "B" ∉ allTitles (exForwardDep.take 1) ∧
      ∃ τ, build dm0 exForwardDep = .error (.depNotFound τ)) := by
  refine ⟨⟨by decide, ?_⟩, ⟨by decide, ?_⟩, ⟨by decide, ?_⟩⟩
  · exact c1_two_pass_amended.1 dm0 exForwardLinkB resForwardLinkB rfl (by decide)
      0 (by decide) (linkNode "P" "Q") (List.mem_singleton.2 rfl) "Q" rfl (by decide)
      1 (by decide) (leafT "Q") (List.mem_singleton.2 rfl) rfl
  · exact c1_two_pass_amended.2.1 dm0 exForwardRel resForwardRel rfl (by decide)
      0 (by decide) ⟨"A", "B", none, none⟩ (List.mem_singleton.2 rfl)
      0 (by decide) (leafT "A") (List.mem_singleton.2 rfl) rfl
      1 (by decide) (leafT "B") (List.mem_singleton.2 rfl) rfl
  · exact c1_two_pass_amended.2.2 dm0 exForwardDep 0 (by decide)
      (depTopic "A" "B") (List.mem_singleton.2 rfl)
      [⟨"B", "FS", none⟩] rfl (by decide) ⟨"B", "FS", none⟩ (List.mem_singleton.2 rfl)
      (by decide)

/-- C8: round-trip of internal links.  In a successful build with unique
topic titles, a topic declaring `linkToTopic` to title `τ` is emitted with
href exactly `xmind:#` of the identifier generated for the topic titled
`τ`, whichever sheet holds it. -/
theorem c8_internal_link_roundtrip (dm : String → Int) (sheets : List SheetSpec)
    (res : BuildResult) (hok : build dm sheets = .ok res)
    (hnd : (allTitles sheets).Nodup)
    (iA : Nat) (hiA : iA < sheets.length)
    (nA : TopicSpec) (hnA : nA ∈ specNodes (sheets.getD iA default).rootTopic)
    (τ : String) (hlink : nA.core.linkToTopic = some τ) (hne : τ ≠ "")
    (iB : Nat) (hiB : iB < sheets.length)
    (nB : TopicSpec) (hnB : nB ∈ specNodes (sheets.getD iB default).rootTopic)
    (htitle : nB.core.title = some τ) :
    ∃ qA ∈ pairsT (sheets.getD iA default).rootTopic
        ((res.content.getD iA default).rootTopic),
      qA.1 = nA ∧
      ∃ qB ∈ pairsT (sheets.getD iB default).rootTopic
          ((res.content.getD iB default).rootTopic),
        qB.1 = nB ∧ qA.2.core.href = some (xmindHref qB.2.core.id) :=
  links_cross_sheet dm sheets res hok hnd iA hiA nA hnA τ hlink hne iB hiB nB hnB htitle

theorem c8_internal_link_roundtrip_witness :
    ((allTitles exForwardLink).Nodup ∧ build dm0 exForwardLink = .ok resForwardLink) ∧
      ∃ qA ∈ pairsT (exForwardLink.getD 0 default).rootTopic
          ((resForwardLink.content.getD 0 default).rootTopic),
        qA.1 = linkNode "A" "B" ∧
        ∃ qB ∈ pairsT (exForwardLink.getD 1 default).rootTopic
            ((resForwardLink.content.getD 1 default).rootTopic),
          qB.1 = leafT "B" ∧ qA.2.core.href = some (xmindHref qB.2.core.id) := by
  refine ⟨⟨by decide, rfl⟩, ?_⟩
  exact c8_internal_link_roundtrip dm0 exForwardLink resForwardLink rfl (by decide)
    0 (by decide) (linkNode "A" "B") (List.mem_singleton.2 rfl) "B" rfl (by decide)
    1 (by decide) (leafT "B") (List.mem_singleton.2 rfl) rfl

end XMind
